import Mathlib

/-!
Verification of the `realtor-agents-scraper` repository.

The Python sources are shallowly embedded in Lean:
* loosely-typed Python values (the `Any` that flows through the cleaning
  pipeline) become the inductive `PyVal`; Python `dict`s are association
  lists in insertion order, Python `float`s are modelled at value level
  by rationals;
* the functions of `src/extractors/data_cleaner.py` are translated
  one-to-one (`_to_int` ↦ `toInt?`, `_to_float` ↦ `toFloat?`,
  `_clean_phone` ↦ `cleanPhone`, `_dedupe_list` ↦ `dedupeList`,
  `_clean_office` ↦ `cleanOffice`, `_clean_address` ↦ `cleanAddress`,
  `clean_agent_record` ↦ `cleanAgentRecord`, `clean_agents` ↦ `cleanAgents`);
* the pipeline driver of `src/extractors/realtor_parser.py`
  (`scrape_from_urls` / `_scrape_listing`) is embedded with the external
  collaborators (HTTP fetch, HTML parse) abstracted as an oracle
  environment `ScrapeEnv`, as the spec designates them external;
* `export_all` of `src/outputs/exporters.py` is embedded with the four
  per-format file writers abstracted as an oracle, failure modelled by
  `Except`.
-/

set_option maxHeartbeats 1000000

namespace RealtorScraper

/-- Loosely-typed Python values as they flow through the cleaning pipeline.
`dict` is an association list in insertion order; `float` is modelled by a
rational (the IEEE value of every float that occurs here). Python `bool`
does not occur in this code path and is omitted. -/
inductive PyVal where
  | none : PyVal
  | str : String → PyVal
  | int : Int → PyVal
  | float : ℚ → PyVal
  | list : List PyVal → PyVal
  | dict : List (String × PyVal) → PyVal

/-- Python truthiness (`bool(v)`) for the values of `PyVal`. -/
def pyTruthy : PyVal → Bool
  | PyVal.none => false
  | PyVal.str s => !s.isEmpty
  | PyVal.int n => n != 0
  | PyVal.float q => q != 0
  | PyVal.list xs => !xs.isEmpty
  | PyVal.dict kvs => !kvs.isEmpty

/-- Models `d.get(k)` on a Python dict: the value at the first matching key. -/
def pyGet (d : List (String × PyVal)) (k : String) : Option PyVal :=
  (d.find? fun kv => kv.1 == k).map fun kv => kv.2

/-- Models `d.get(k, default)` on a Python dict. -/
def pyGetD (d : List (String × PyVal)) (k : String) (dflt : PyVal) : PyVal :=
  (pyGet d k).getD dflt

/-- Models `d[k] = v` on a Python dict: overwrite in place if the key is
present (keeping its position), else append. -/
def setItem (d : List (String × PyVal)) (k : String) (v : PyVal) :
    List (String × PyVal) :=
  if (d.find? fun kv => kv.1 == k).isSome then
    d.map fun kv => if kv.1 == k then (k, v) else kv
  else d ++ [(k, v)]

/-- Models `str.strip()` at the character-list level: drop leading and
trailing whitespace (Python's unicode whitespace classes approximated by
`Char.isWhitespace`). -/
def stripLeft (cs : List Char) : List Char := cs.dropWhile Char.isWhitespace

def pyStripCore (cs : List Char) : List Char :=
  ((stripLeft cs).reverse |> stripLeft).reverse

def pyStrip (s : String) : String := String.mk (pyStripCore s.data)

/-- Models `str.split()` (split on whitespace runs, discarding empties);
`cur` accumulates the current word reversed. -/
def wordsAux : List Char → List Char → List String
  | [], cur => if cur.isEmpty then [] else [String.mk cur.reverse]
  | c :: rest, cur =>
    if c.isWhitespace then
      if cur.isEmpty then wordsAux rest [] else String.mk cur.reverse :: wordsAux rest []
    else wordsAux rest (c :: cur)

def pySplitWS (s : String) : List String := wordsAux s.data []

/-- Models the `" ".join(str(x).split())` whitespace-collapsing idiom used
throughout `data_cleaner.py`. -/
def collapseWS (s : String) : String := String.intercalate " " (pySplitWS s)

/-- Models `str.lower()` (ASCII case folding suffices for the format
identifiers it is applied to). -/
def pyLower (s : String) : String := String.mk (s.data.map Char.toLower)

/-- Decimal digits of the fractional part of `q ∈ [0, 1)`, with fuel
bounding the number of emitted places (mirrors the finite decimal
rendering of a Python float). -/
def fracDigits : ℚ → Nat → List Char
  | _, 0 => []
  | q, n + 1 =>
    if q = 0 then []
    else
      let q10 := q * 10
      let d := q10.floor
      Char.ofNat (48 + d.toNat) :: fracDigits (q10 - d) n

/-- Rendering of a Python float value (`str(f)`): sign, integer part, dot,
fractional digits (at most 17 places, `1.0` for integral values). -/
def floatStr (q : ℚ) : String :=
  let sign := if q < 0 then "-" else ""
  let a := |q|
  let ip := a.floor
  let ds := fracDigits (a - ip) 17
  sign ++ toString ip ++ "." ++ (if ds.isEmpty then "0" else String.mk ds)

/-- Python single-quote character, used by `repr` on strings. -/
def sq : String := String.mk ['\'']

/-- Models `repr(v)` for the value types in play (string escaping beyond
the surrounding quotes is not modelled; it is only ever used as an opaque
deduplication key and as the `str()` rendering of containers). -/
def pyRepr : PyVal → String
  | PyVal.none => "None"
  | PyVal.str s => sq ++ s ++ sq
  | PyVal.int n => toString n
  | PyVal.float q => floatStr q
  | PyVal.list xs =>
    "[" ++ String.intercalate ", " (xs.attach.map fun x => pyRepr x.1) ++ "]"
  | PyVal.dict kvs =>
    "\x7b" ++
      String.intercalate ", "
        (kvs.attach.map fun kv => sq ++ kv.1.1 ++ sq ++ ": " ++ pyRepr kv.1.2) ++
      "\x7d"
decreasing_by
  · have h := List.sizeOf_lt_of_mem x.2
    simp only [PyVal.list.sizeOf_spec]
    omega
  · have h := List.sizeOf_lt_of_mem kv.2
    have h2 : sizeOf kv.1.2 < sizeOf kv.1 := by
      obtain ⟨a, b⟩ := kv.1
      simp only [Prod.mk.sizeOf_spec]
      omega
    simp only [PyVal.dict.sizeOf_spec]
    omega

/-- Models `str(v)`: identity on strings, `repr` otherwise (for `None`,
numbers, lists and dicts `str` and `repr` agree). -/
def pyStr : PyVal → String
  | PyVal.str s => s
  | v => pyRepr v

/-- `int("...")` on a non-empty run of decimal digits. -/
def digitsToNat (cs : List Char) : Nat :=
  cs.foldl (fun acc c => acc * 10 + (c.toNat - 48)) 0

/-- Embedding of `_to_int` (data_cleaner.py lines 41-51): `None` passes
through as no-value, an `int` is returned unchanged, anything else is
stringified, every non-digit character is stripped and the remaining digit
run parsed (no digits ↦ no-value). The `try/except` around the string path
cannot fire in this model because a run of ASCII digits always parses. -/
def toInt? (v : PyVal) : Option Int :=
  match v with
  | PyVal.none => Option.none
  | PyVal.int n => some n
  | v =>
    let digits := (pyStr v).data.filter Char.isDigit
    if digits.isEmpty then Option.none else some (Int.ofNat (digitsToNat digits))

/-- The character filter of `_to_float`: keep digits and the first dot
(`dot_seen` threading the loop's flag). -/
def keepDigitsFirstDot : List Char → Bool → List Char
  | [], _ => []
  | c :: rest, dotSeen =>
    if c.isDigit then c :: keepDigitsFirstDot rest dotSeen
    else if c == '.' && !dotSeen then c :: keepDigitsFirstDot rest true
    else keepDigitsFirstDot rest dotSeen

/-- `float("...")` on the filtered character run (digits with at most one
dot). A bare "." fails to parse, mirroring `float(".")` raising. -/
def parsePyFloat (cs : List Char) : Option ℚ :=
  let intPart := cs.takeWhile fun c => c != '.'
  let rest := cs.dropWhile fun c => c != '.'
  match rest with
  | [] => if intPart.isEmpty then Option.none else some (digitsToNat intPart : ℚ)
  | _ :: frac =>
    if frac.any fun c => c == '.' then Option.none
    else if intPart.isEmpty && frac.isEmpty then Option.none
    else some ((digitsToNat intPart : ℚ) + (digitsToNat frac : ℚ) / (10 : ℚ) ^ frac.length)

/-- Embedding of `_to_float` (data_cleaner.py lines 53-70): `None` passes
through, numbers are returned as floats, anything else is stringified,
stripped, commas replaced by dots, filtered to digits plus the first dot,
and parsed (empty filter result ↦ no-value, parse failure caught ↦
no-value). -/
def toFloat? (v : PyVal) : Option ℚ :=
  match v with
  | PyVal.none => Option.none
  | PyVal.int n => some (n : ℚ)
  | PyVal.float q => some q
  | v =>
    let text := (pyStrip (pyStr v)).data.map fun c => if c == ',' then '.' else c
    let parts := keepDigitsFirstDot text false
    if parts.isEmpty then Option.none else parsePyFloat parts

/-- The digit/plus filter of `_clean_phone` (data_cleaner.py lines 12-18):
keep digits and `+`, falling back to the trimmed original if the filter
strips everything. -/
def normalizePhoneNumber (number : String) : String :=
  let cleanedChars := number.data.filter fun c => c.isDigit || c == '+'
  if cleanedChars.isEmpty then number else String.mk cleanedChars

/-- The string-normalization step applied to `phone_type` (lines 21-22): a
string is trimmed with empty collapsing to `None`; anything else passes
through. -/
def typeNorm : PyVal → PyVal
  | PyVal.str s => if pyStrip s = "" then PyVal.none else PyVal.str (pyStrip s)
  | t => t

/-- `phone_type` of `_clean_phone` (lines 20-22): `phone.get("type") or
None`, then the string normalization above. -/
def phoneTypeOf (phone : List (String × PyVal)) : PyVal :=
  let t0 :=
    match pyGet phone "type" with
    | some v => if pyTruthy v then v else PyVal.none
    | Option.none => PyVal.none
  typeNorm t0

/-- The optional `type` entry of the cleaned phone (line 25-26). -/
def phoneTypePart (phone : List (String × PyVal)) : List (String × PyVal) :=
  if pyTruthy (phoneTypeOf phone) then [("type", phoneTypeOf phone)] else []

/-- The optional `ext` entry of the cleaned phone (lines 27-28):
`"ext" in phone and phone["ext"]`, stored stringified and trimmed. -/
def phoneExtPart (phone : List (String × PyVal)) : List (String × PyVal) :=
  match pyGet phone "ext" with
  | some e => if pyTruthy e then [("ext", PyVal.str (pyStrip (pyStr e)))] else []
  | Option.none => []

/-- Embedding of `_clean_phone` (data_cleaner.py lines 6-29): trim the
stringified number (empty ↦ `None`), then build the result dict in
insertion order `number`, optional `type`, optional `ext`. -/
def cleanPhone (phone : List (String × PyVal)) : Option (List (String × PyVal)) :=
  let number := pyStrip (pyStr (pyGetD phone "number" (PyVal.str "")))
  if number = "" then Option.none
  else
    some (("number", PyVal.str (normalizePhoneNumber number)) ::
      (phoneTypePart phone ++ phoneExtPart phone))

/-- The raw phones for which re-cleaning is drift-free: an `ext` entry, if
present and truthy, must not be whitespace-only once stringified (a
whitespace-only `ext` is stored as the empty string, which the second pass
then drops). -/
def extSafeD (kvs : List (String × PyVal)) : Prop :=
  match pyGet kvs "ext" with
  | some e => pyTruthy e = true → pyStrip (pyStr e) ≠ ""
  | Option.none => True

/-- Raw phone entries whose re-cleaning is drift-free (lifted to `PyVal`;
non-dict entries are dropped by the stage, so they are always safe). -/
def extSafe : PyVal → Prop
  | PyVal.dict kvs => extSafeD kvs
  | _ => True

/-- The loop of `_dedupe_list` (data_cleaner.py lines 31-39): `seen` is the
set of `repr` keys already emitted (set membership modelled as list
membership). -/
def dedupeGo (key : PyVal → String) : List PyVal → List String → List PyVal
  | [], _ => []
  | x :: xs, seen =>
    if key x ∈ seen then dedupeGo key xs seen
    else x :: dedupeGo key xs (seen ++ [key x])

/-- Embedding of `_dedupe_list`: order-preserving deduplication keyed by
`repr(item)`. -/
def dedupeList (items : List PyVal) : List PyVal := dedupeGo pyRepr items []

/-- Embedding of `_clean_office` (data_cleaner.py lines 72-82). -/
def cleanOffice (office : List (String × PyVal)) : List (String × PyVal) :=
  let c1 : List (String × PyVal) :=
    match pyGet office "name" with
    | some v => if pyTruthy v then [("name", PyVal.str (pyStrip (pyStr v)))] else []
    | Option.none => []
  let c2 :=
    match pyGet office "website" with
    | some v => if pyTruthy v then c1 ++ [("website", PyVal.str (pyStrip (pyStr v)))] else c1
    | Option.none => c1
  let c3 :=
    match pyGet office "raw_address" with
    | some v =>
      if pyTruthy v then
        setItem c2 "address" (PyVal.dict [("raw", PyVal.str (collapseWS (pyStr v)))])
      else c2
    | Option.none => c2
  match pyGet office "address" with
  | some (PyVal.dict kvs) => setItem c3 "address" (PyVal.dict kvs)
  | _ => c3

/-- The address keys retained by `_clean_address`. -/
def addressKeys : List String := ["line", "city", "state", "postal_code", "raw"]

/-- Embedding of `_clean_address` (data_cleaner.py lines 84-89). -/
def cleanAddress (address : List (String × PyVal)) : List (String × PyVal) :=
  addressKeys.filterMap fun key =>
    match pyGet address key with
    | some v =>
      if pyTruthy v then some (key, PyVal.str (collapseWS (pyStr v))) else Option.none
    | Option.none => Option.none

/-- The six simple scalar text fields of `clean_agent_record`. -/
def scalarFields : List String :=
  ["description", "experience", "web_url", "title", "photo", "advertiser_id"]

/-- Scalar-field pass of `clean_agent_record` (lines 94-97): each field, in
order, included whitespace-collapsed when present and truthy. -/
def scalarSection (agent : List (String × PyVal)) : List (String × PyVal) :=
  scalarFields.filterMap fun field =>
    match pyGet agent field with
    | some v =>
      if pyTruthy v then some (field, PyVal.str (collapseWS (pyStr v))) else Option.none
    | Option.none => Option.none

/-- `first_year` pass (lines 100-102): kept only when the coerced integer
is truthy, so zero is dropped. -/
def firstYearSection (agent : List (String × PyVal)) : List (String × PyVal) :=
  match toInt? (pyGetD agent "first_year" PyVal.none) with
  | some n => if n = 0 then [] else [("first_year", PyVal.int n)]
  | Option.none => []

/-- `review_count` pass (lines 104-106): kept whenever coercion yields a
value, zero included. -/
def reviewCountSection (agent : List (String × PyVal)) : List (String × PyVal) :=
  match toInt? (pyGetD agent "review_count" PyVal.none) with
  | some n => [("review_count", PyVal.int n)]
  | Option.none => []

/-- `agent_rating` pass (lines 108-110). -/
def agentRatingSection (agent : List (String × PyVal)) : List (String × PyVal) :=
  match toFloat? (pyGetD agent "agent_rating" PyVal.none) with
  | some q => [("agent_rating", PyVal.float q)]
  | Option.none => []

/-- The `agent.get(k) or []` idiom (lines 113 and 138): a falsy value is
replaced by the empty list (a truthy non-list passes through and is then
rejected by the isinstance check). -/
def pyOrEmptyList (agent : List (String × PyVal)) (k : String) : PyVal :=
  let v := pyGetD agent k PyVal.none
  if pyTruthy v then v else PyVal.list []

/-- Per-element phone cleaning of the phones pass (lines 116-121):
non-dict elements are skipped, cleaned phones kept when truthy. -/
def cleanPhoneVal (raw : PyVal) : Option PyVal :=
  match raw with
  | PyVal.dict kvs =>
    match cleanPhone kvs with
    | some d => if pyTruthy (PyVal.dict d) then some (PyVal.dict d) else Option.none
    | Option.none => Option.none
  | _ => Option.none

/-- The phones surviving per-phone cleaning, before deduplication. -/
def cleanedPhones (rs : List PyVal) : List PyVal := rs.filterMap cleanPhoneVal

/-- The full phone-cleaning stage named by the spec: per-phone cleaning,
dropping of empty numbers, then `_dedupe_list`. -/
def cleanPhonesStage (rs : List PyVal) : List PyVal := dedupeList (cleanedPhones rs)

/-- Phones pass of `clean_agent_record` (lines 112-123): `agent.get("phones")
or []`, a non-list leaves the collection empty, and the deduplicated list is
included only when at least one phone survived. -/
def phonesSection (agent : List (String × PyVal)) : List (String × PyVal) :=
  match pyOrEmptyList agent "phones" with
  | PyVal.list rs =>
    let ps := cleanedPhones rs
    if ps.isEmpty then [] else [("phones", PyVal.list (dedupeList ps))]
  | _ => []

/-- Address pass (lines 125-129). -/
def addressSection (agent : List (String × PyVal)) : List (String × PyVal) :=
  match pyGet agent "address" with
  | some (PyVal.dict kvs) =>
    let addr := cleanAddress kvs
    if addr.isEmpty then [] else [("address", PyVal.dict addr)]
  | _ => []

/-- Office pass (lines 131-135). -/
def officeSection (agent : List (String × PyVal)) : List (String × PyVal) :=
  match pyGet agent "office" with
  | some (PyVal.dict kvs) =>
    let office := cleanOffice kvs
    if office.isEmpty then [] else [("office", PyVal.dict office)]
  | _ => []

/-- Specializations pass (lines 137-142): `[str(s).strip() for s in specs
if s]`, then dedupe; note a truthy whitespace-only element survives as the
empty string. -/
def specializationsSection (agent : List (String × PyVal)) : List (String × PyVal) :=
  match pyOrEmptyList agent "specializations" with
  | PyVal.list ss =>
    let cleanedSpecs := (ss.filter pyTruthy).map fun s => PyVal.str (pyStrip (pyStr s))
    if cleanedSpecs.isEmpty then []
    else [("specializations", PyVal.list (dedupeList cleanedSpecs))]
  | _ => []

/-- Broker pass (lines 144-152): dict comprehension keeping truthy values,
whitespace-collapsed. -/
def brokerSection (agent : List (String × PyVal)) : List (String × PyVal) :=
  match pyGet agent "broker" with
  | some (PyVal.dict kvs) =>
    let b := kvs.filterMap fun kv =>
      if pyTruthy kv.2 then some (kv.1, PyVal.str (collapseWS (pyStr kv.2))) else Option.none
    if b.isEmpty then [] else [("broker", PyVal.dict b)]
  | _ => []

/-- `Optional[int]` written back into an activity block (`rs["count"] =
_to_int(...)`): `None` is stored as `None`. -/
def optToVal : Option Int → PyVal
  | some n => PyVal.int n
  | Option.none => PyVal.none

/-- `recently_sold` pass (lines 154-159): shallow copy with `count`
coerced in place when the key exists (even to `None`); the block is kept
unconditionally, empty or not. -/
def recentlySoldSection (agent : List (String × PyVal)) : List (String × PyVal) :=
  match pyGet agent "recently_sold" with
  | some (PyVal.dict kvs) =>
    let rs :=
      match pyGet kvs "count" with
      | some old => setItem kvs "count" (optToVal (toInt? old))
      | Option.none => kvs
    [("recently_sold", PyVal.dict rs)]
  | _ => []

/-- `for_sale_price` pass (lines 161-166): `min`, `max` and `count`
coerced in place when present; kept unconditionally. -/
def forSalePriceSection (agent : List (String × PyVal)) : List (String × PyVal) :=
  match pyGet agent "for_sale_price" with
  | some (PyVal.dict kvs) =>
    let fs := ["min", "max", "count"].foldl
      (fun acc key =>
        match pyGet acc key with
        | some old => setItem acc key (optToVal (toInt? old))
        | Option.none => acc)
      kvs
    [("for_sale_price", PyVal.dict fs)]
  | _ => []

/-- Per-element review cleaning of the reviews pass (lines 170-185): a
dict element keeps a coerced `rating` when parseable and a trimmed
`comment` truncated at 2000 characters; an element yielding neither field
is dropped. -/
def cleanReview (review : PyVal) : Option PyVal :=
  match review with
  | PyVal.dict rkvs =>
    let r1 : List (String × PyVal) :=
      match pyGet rkvs "rating" with
      | some rv =>
        match toFloat? rv with
        | some q => [("rating", PyVal.float q)]
        | Option.none => []
      | Option.none => []
    let r2 :=
      match pyGet rkvs "comment" with
      | some cv =>
        if pyTruthy cv then
          let text := pyStrip (pyStr cv)
          let text :=
            if text.data.length > 2000 then String.mk (text.data.take 2000) ++ "..."
            else text
          r1 ++ [("comment", PyVal.str text)]
        else r1
      | Option.none => r1
    if r2.isEmpty then Option.none else some (PyVal.dict r2)
  | _ => Option.none

/-- Reviews pass (lines 168-187): the cleaned reviews list is kept only
if non-empty. -/
def reviewsSection (agent : List (String × PyVal)) : List (String × PyVal) :=
  match pyGet agent "reviews" with
  | some (PyVal.list revs) =>
    let cleanedReviews := revs.filterMap cleanReview
    if cleanedReviews.isEmpty then [] else [("reviews", PyVal.list cleanedReviews)]
  | _ => []

/-- Recommendations pass (lines 189-196): dict elements kept verbatim. -/
def recommendationsSection (agent : List (String × PyVal)) : List (String × PyVal) :=
  match pyGet agent "recommendations" with
  | some (PyVal.list recs) =>
    let rs := recs.filterMap fun item =>
      match item with
      | PyVal.dict kvs => some (PyVal.dict kvs)
      | _ => Option.none
    if rs.isEmpty then [] else [("recommendations", PyVal.list rs)]
  | _ => []

/-- Embedding of `clean_agent_record` (data_cleaner.py lines 91-198): the
cleaned dict is built by sequential assignment of the passes above; since
every pass writes distinct keys, insertion order is their concatenation. -/
def cleanAgentRecord (agent : List (String × PyVal)) : List (String × PyVal) :=
  scalarSection agent ++ firstYearSection agent ++ reviewCountSection agent ++
    agentRatingSection agent ++ phonesSection agent ++ addressSection agent ++
    officeSection agent ++ specializationsSection agent ++ brokerSection agent ++
    recentlySoldSection agent ++ forSalePriceSection agent ++ reviewsSection agent ++
    recommendationsSection agent

/-- Embedding of `clean_agents` (data_cleaner.py lines 200-211): non-dict
entries are skipped, and records cleaning to an empty dict are dropped. -/
def cleanAgents (agents : List PyVal) : List (List (String × PyVal)) :=
  agents.filterMap fun a =>
    match a with
    | PyVal.dict kvs =>
      let c := cleanAgentRecord kvs
      if c.isEmpty then Option.none else some c
    | _ => Option.none

/-- A raw agent record as returned by `_scrape_agent_profile`. -/
abbrev AgentRec := List (String × PyVal)

/-- The external collaborators of the pipeline driver (spec section 6):
URL classification, fetching-plus-link-harvesting of a listing page, and
fetch-plus-extraction of one profile page. `listingLinks url = none`
models `_get_with_retries` exhausting its retries for the listing;
`profileData url = none` models a failed fetch or an extraction whose raw
record had no truthy field (both make `_scrape_agent_profile` return
`None`). -/
structure ScrapeEnv where
  looksLikeProfile : String → Bool
  listingLinks : String → Option (List String)
  profileData : String → Option AgentRec

/-- `limit is not None and count >= limit`. -/
def limitReached : Option Nat → Nat → Bool
  | some k, c => k ≤ c
  | Option.none, _ => false

/-- The loop of `_scrape_listing` (realtor_parser.py lines 130-137): break
before each link once `current_count + len(agents)` reaches the limit,
otherwise extract and append on success. -/
def listingGo (env : ScrapeEnv) (limit : Option Nat) (currentCount : Nat) :
    List String → List AgentRec → List AgentRec
  | [], acc => acc
  | link :: ls, acc =>
    if limitReached limit (currentCount + acc.length) then acc
    else
      match env.profileData link with
      | some d => listingGo env limit currentCount ls (acc ++ [d])
      | Option.none => listingGo env limit currentCount ls acc

/-- Embedding of `_scrape_listing` (realtor_parser.py lines 116-138): a
failed fetch contributes nothing, otherwise the harvested links are
extracted in discovered order under the limit. -/
def scrapeListing (env : ScrapeEnv) (url : String) (limit : Option Nat)
    (currentCount : Nat) : List AgentRec :=
  match env.listingLinks url with
  | some links => listingGo env limit currentCount links []
  | Option.none => []

/-- The loop of `scrape_from_urls` (realtor_parser.py lines 70-89): stop
once the limit is reached, skip blank URLs, extract profiles directly, and
delegate listings to `_scrape_listing` with the running count (the
trailing `break` after a listing is the explicit final check). -/
def scrapeGo (env : ScrapeEnv) (limit : Option Nat) :
    List String → List AgentRec → List AgentRec
  | [], acc => acc
  | url :: rest, acc =>
    if limitReached limit acc.length then acc
    else
      let u := pyStrip url
      if u = "" then scrapeGo env limit rest acc
      else if env.looksLikeProfile u then
        match env.profileData u with
        | some d => scrapeGo env limit rest (acc ++ [d])
        | Option.none => scrapeGo env limit rest acc
      else
        let acc2 := acc ++ scrapeListing env u limit acc.length
        if limitReached limit acc2.length then acc2 else scrapeGo env limit rest acc2

/-- Embedding of `RealtorAgentScraper.scrape_from_urls` (realtor_parser.py
lines 66-91). -/
def scrapeFromUrls (env : ScrapeEnv) (urls : List String) (limit : Option Nat) :
    List AgentRec :=
  scrapeGo env limit urls []

/-- The format dispatch of `export_all`'s loop (exporters.py lines
111-120): the canonical output key for a recognized normalized format
identifier, `none` for an unknown one. -/
def canonFmt (f : String) : Option String :=
  if f = "json" then some "json"
  else if f = "csv" then some "csv"
  else if f = "xls" ∨ f = "xlsx" ∨ f = "excel" then some "xlsx"
  else if f = "xml" then some "xml"
  else Option.none

/-- `exported[key] = filename` on the Python result dict. -/
def setItemS (d : List (String × String)) (k v : String) : List (String × String) :=
  if (d.find? fun kv => kv.1 == k).isSome then
    d.map fun kv => if kv.1 == k then (k, v) else kv
  else d ++ [(k, v)]

/-- One iteration of `export_all`'s loop, with the per-format writers
abstracted as `writer : canonical key → filename on success`. An unknown
format is skipped (warning), a raised writer exception is caught and
leaves `exported` unchanged. -/
def exportStep (writer : String → Option String) (exported : List (String × String))
    (fmt : String) : List (String × String) :=
  match canonFmt fmt with
  | some key =>
    match writer key with
    | some fn => setItemS exported key fn
    | Option.none => exported
  | Option.none => exported

/-- `[f.lower().strip() for f in formats if f]` (exporters.py line 100). -/
def normFormats (formats : List String) : List String :=
  (formats.filter fun f => !f.isEmpty).map fun f => pyStrip (pyLower f)

/-- Embedding of `export_all` (exporters.py lines 99-126): raises for an
empty normalized format list, for an empty record list, and when the loop
produced no successful export; otherwise returns the map of canonical
format to written filename. -/
def exportAll (writer : String → Option String) (agents : List PyVal)
    (formats : List String) : Except String (List (String × String)) :=
  let fmts := normFormats formats
  if fmts.isEmpty then Except.error "No export formats specified."
  else if agents.isEmpty then Except.error "No agents to export."
  else
    let exported := fmts.foldl (exportStep writer) []
    if exported.isEmpty then Except.error "No exports were successfully generated."
    else Except.ok exported

/-- Whether a normalized format identifier is recognized and its writer
succeeds. -/
def fmtSucceeds (writer : String → Option String) (f : String) : Bool :=
  match canonFmt f with
  | some key => (writer key).isSome
  | Option.none => false

/-- A concrete scrape environment: one listing page `"L"` with three
profile links, each extracting to a one-field record. -/
def envW : ScrapeEnv where
  looksLikeProfile := fun u => u != "L"
  listingLinks := fun u => if u = "L" then some ["pa", "pb", "pc"] else Option.none
  profileData := fun l => some [("web_url", PyVal.str l)]

/-- A concrete writer oracle: only the JSON writer succeeds. -/
def writerW : String → Option String :=
  fun k => if k = "json" then some "agents.json" else Option.none

/-- Observer distinguishing phone lists by the size of the first dict. -/
def headDictLen : List PyVal → Nat
  | PyVal.dict kvs :: _ => kvs.length
  | _ => 0

/-- The inclusion policy of `first_year` (truthy only): zero and no-value
are both dropped. -/
def optFilterNonzero : Option Int → Option PyVal
  | some n => if n = 0 then Option.none else some (PyVal.int n)
  | Option.none => Option.none

/-- The canonical shape of a field of a CleanedRecord, per key (spec
section 3): scalar text fields are strings, numeric fields are ints or
floats (`first_year` additionally non-zero since zero is dropped), the
nested fields are non-empty lists/dicts of the documented element shapes,
and the two activity blocks are dicts that may be empty. Unknown keys
never occur. -/
def fieldShapeOK (k : String) (v : PyVal) : Prop :=
  if k ∈ scalarFields then ∃ s, v = PyVal.str s
  else if k = "first_year" then ∃ n : Int, n ≠ 0 ∧ v = PyVal.int n
  else if k = "review_count" then ∃ n : Int, v = PyVal.int n
  else if k = "agent_rating" then ∃ q : ℚ, v = PyVal.float q
  else if k = "phones" then
    ∃ ps, ps ≠ [] ∧ v = PyVal.list ps ∧ ∀ p ∈ ps, ∃ pk, pk ≠ [] ∧ p = PyVal.dict pk
  else if k = "address" ∨ k = "office" ∨ k = "broker" then
    ∃ a, a ≠ [] ∧ v = PyVal.dict a
  else if k = "specializations" then
    ∃ ss, ss ≠ [] ∧ v = PyVal.list ss ∧ ∀ x ∈ ss, ∃ t, x = PyVal.str t
  else if k = "recently_sold" ∨ k = "for_sale_price" then ∃ a, v = PyVal.dict a
  else if k = "reviews" then
    ∃ rs, rs ≠ [] ∧ v = PyVal.list rs ∧ ∀ r ∈ rs, ∃ rk, rk ≠ [] ∧ r = PyVal.dict rk
  else if k = "recommendations" then
    ∃ rs, rs ≠ [] ∧ v = PyVal.list rs ∧ ∀ r ∈ rs, ∃ rk, r = PyVal.dict rk
  else False

/-- An empty raw value in the sense of the spec: `None`, the empty string,
the empty list or the empty mapping. -/
def emptyVal (v : PyVal) : Prop :=
  v = PyVal.none ∨ v = PyVal.str "" ∨ v = PyVal.list [] ∨ v = PyVal.dict []

def notList (v : PyVal) : Prop := ∀ xs, v ≠ PyVal.list xs

def notDict (v : PyVal) : Prop := ∀ kvs, v ≠ PyVal.dict kvs

/-- A raw field value that contributes nothing to the cleaned record:
empty/None, or of the wrong type for its category — except that for the
two activity blocks an empty mapping is NOT unusable (the code copies it
through), so there the value must not be a mapping at all. -/
def unusableField (k : String) (v : PyVal) : Prop :=
  if k = "recently_sold" ∨ k = "for_sale_price" then notDict v
  else if k ∈ ["phones", "specializations", "reviews", "recommendations"] then
    emptyVal v ∨ notList v
  else if k ∈ ["address", "office", "broker"] then emptyVal v ∨ notDict v
  else emptyVal v

/-! ### Association-list lookup lemmas -/

theorem pyGet_nil (k : String) : pyGet [] k = Option.none := rfl

theorem pyGet_cons (kv : String × PyVal) (l : List (String × PyVal)) (k : String) :
    pyGet (kv :: l) k = if kv.1 = k then some kv.2 else pyGet l k := by
  by_cases h : kv.1 = k
  · simp [pyGet, List.find?_cons_of_pos, h]
  · simp [pyGet, List.find?_cons_of_neg, h]

theorem mem_of_pyGet {l : List (String × PyVal)} {k : String} {v : PyVal}
    (h : pyGet l k = some v) : (k, v) ∈ l := by
  induction l with
  | nil => simp [pyGet] at h
  | cons kv t ih =>
    rw [pyGet_cons] at h
    by_cases hk : kv.1 = k
    · rw [if_pos hk] at h
      injection h with hv
      obtain ⟨a, b⟩ := kv
      simp only at hk hv
      subst hk
      subst hv
      exact List.mem_cons_self _ _
    · rw [if_neg hk] at h
      exact List.mem_cons_of_mem _ (ih h)

theorem pyGet_eq_none_of_keys {l : List (String × PyVal)} {k : String}
    (h : ∀ kv ∈ l, kv.1 ≠ k) : pyGet l k = Option.none := by
  induction l with
  | nil => rfl
  | cons kv t ih =>
    rw [pyGet_cons, if_neg (h kv (List.mem_cons_self kv t))]
    exact ih fun kv hkv => h kv (List.mem_cons_of_mem _ hkv)

theorem pyGet_append (l₁ l₂ : List (String × PyVal)) (k : String) :
    pyGet (l₁ ++ l₂) k =
      match pyGet l₁ k with
      | some v => some v
      | Option.none => pyGet l₂ k := by
  induction l₁ with
  | nil => simp [pyGet_nil]
  | cons kv t ih =>
    rw [List.cons_append, pyGet_cons, pyGet_cons, ih]
    by_cases h : kv.1 = k <;> simp [h]

theorem pyGet_append_of_none {l₁ : List (String × PyVal)} {k : String}
    (l₂ : List (String × PyVal)) (h : pyGet l₁ k = Option.none) :
    pyGet (l₁ ++ l₂) k = pyGet l₂ k := by
  rw [pyGet_append, h]

theorem skip_section {s : List (String × PyVal)} {k : String}
    (rest : List (String × PyVal)) (h : ∀ kv ∈ s, kv.1 ≠ k) :
    pyGet (s ++ rest) k = pyGet rest k :=
  pyGet_append_of_none rest (pyGet_eq_none_of_keys h)

/-! ### Stripping lemmas -/

theorem dropWhile_eq_self_of_all {p : Char → Bool} {l : List Char}
    (h : ∀ c ∈ l, p c = false) : l.dropWhile p = l := by
  cases l with
  | nil => rfl
  | cons c t => simp [List.dropWhile, h c (List.mem_cons_self c t)]

theorem head_dropWhile_false {p : Char → Bool} :
    ∀ (l : List Char) (a : Char) (t : List Char), l.dropWhile p = a :: t → p a = false := by
  intro l
  induction l with
  | nil => intro a t h; simp at h
  | cons c cs ih =>
    intro a t h
    by_cases hc : p c
    · rw [List.dropWhile_cons_of_pos hc] at h
      exact ih a t h
    · rw [List.dropWhile_cons_of_neg hc] at h
      injection h with h1 h2
      rw [← h1]
      simpa using hc

theorem dropWhile_eq_self_of_head {p : Char → Bool} {l : List Char} {a : Char}
    {t : List Char} (hl : l = a :: t) (h : p a = false) : l.dropWhile p = l := by
  subst hl
  rw [List.dropWhile_cons_of_neg (by simp [h])]

theorem getLast?_dropWhile {p : Char → Bool} :
    ∀ l : List Char, l.dropWhile p ≠ [] → (l.dropWhile p).getLast? = l.getLast? := by
  intro l
  induction l with
  | nil => intro h; simp at h
  | cons c cs ih =>
    intro h
    by_cases hc : p c
    · rw [List.dropWhile_cons_of_pos hc] at h ⊢
      rw [ih h]
      cases cs with
      | nil => rw [List.dropWhile_nil] at h; exact absurd rfl h
      | cons d ds => simp [List.getLast?_cons_cons]
    · rw [List.dropWhile_cons_of_neg hc]

theorem stripLeft_head_false {cs : List Char} {a : Char} {t : List Char}
    (h : stripLeft cs = a :: t) : a.isWhitespace = false :=
  head_dropWhile_false cs a t h

theorem stripLeft_eq_dropWhile (cs : List Char) :
    stripLeft cs = cs.dropWhile Char.isWhitespace := rfl

theorem stripLeft_eq_self_of_head {l : List Char} {a : Char} {t : List Char}
    (hl : l = a :: t) (h : a.isWhitespace = false) : stripLeft l = l :=
  dropWhile_eq_self_of_head hl h

theorem pyStripCore_idem_aux (d e : List Char) (hede : e = stripLeft d.reverse)
    (hd : ∀ a t, d = a :: t → a.isWhitespace = false) :
    pyStripCore e.reverse = e.reverse := by
  -- left-stripping the result is a no-op: its head is the last element of
  -- `e`, which is the last element of `d.reverse`, i.e. the head of `d`,
  -- a non-whitespace character
  have hA : stripLeft e.reverse = e.reverse := by
    cases hr : e.reverse with
    | nil => rfl
    | cons b bs =>
      have hb : e.getLast? = some b := by
        rw [← List.head?_reverse, hr]; rfl
      have hene : e ≠ [] := by
        intro hcon
        rw [hcon] at hr
        simp at hr
      have h1 : e.getLast? = d.reverse.getLast? := by
        rw [hede]
        exact getLast?_dropWhile d.reverse
          (by rw [← stripLeft_eq_dropWhile, ← hede]; exact hene)
      cases hdc : d with
      | nil =>
        rw [hdc] at h1
        simp [h1] at hb
      | cons x xs =>
        have hx : x.isWhitespace = false := hd x xs hdc
        have h2 : d.reverse.getLast? = some x := by
          rw [List.getLast?_reverse, hdc]; rfl
        rw [h1, h2] at hb
        injection hb with hb2
        exact stripLeft_eq_self_of_head rfl (by rw [← hb2]; exact hx)
  rw [show pyStripCore e.reverse = (stripLeft (stripLeft e.reverse).reverse).reverse from rfl,
    hA, List.reverse_reverse]
  -- right-stripping is likewise a no-op since `e` is already left-stripped
  cases he2 : e with
  | nil => rfl
  | cons a t =>
    have ha : a.isWhitespace = false :=
      @stripLeft_head_false d.reverse a t (by rw [← hede]; exact he2)
    rw [stripLeft_eq_self_of_head rfl ha]

theorem pyStripCore_idem (cs : List Char) :
    pyStripCore (pyStripCore cs) = pyStripCore cs :=
  pyStripCore_idem_aux (stripLeft cs) (stripLeft (stripLeft cs).reverse) rfl
    (fun _ _ h => stripLeft_head_false h)

theorem pyStrip_idem (s : String) : pyStrip (pyStrip s) = pyStrip s :=
  congrArg String.mk (pyStripCore_idem s.data)

theorem pyStripCore_of_no_ws {cs : List Char}
    (h : ∀ c ∈ cs, c.isWhitespace = false) : pyStripCore cs = cs := by
  unfold pyStripCore
  rw [show stripLeft cs = cs from dropWhile_eq_self_of_all h]
  rw [show stripLeft cs.reverse = cs.reverse from
    dropWhile_eq_self_of_all (by intro c hc; exact h c (List.mem_reverse.mp hc))]
  exact List.reverse_reverse cs

theorem pyStrip_of_no_ws {s : String} (h : ∀ c ∈ s.data, c.isWhitespace = false) :
    pyStrip s = s := by
  unfold pyStrip
  rw [pyStripCore_of_no_ws h]

theorem pyStrip_data (s : String) : (pyStrip s).data = pyStripCore s.data := rfl

/-! ### Deduplication lemmas (generic in the repr key) -/

theorem dedupeGo_subset (key : PyVal → String) :
    ∀ (xs : List PyVal) (seen : List String) (x : PyVal),
      x ∈ dedupeGo key xs seen → x ∈ xs := by
  intro xs
  induction xs with
  | nil => intro seen x h; simp [dedupeGo] at h
  | cons y ys ih =>
    intro seen x h
    rw [dedupeGo] at h
    by_cases hs : key y ∈ seen
    · rw [if_pos hs] at h
      exact List.mem_cons_of_mem _ (ih seen x h)
    · rw [if_neg hs] at h
      rcases List.mem_cons.mp h with h1 | h1
      · rw [h1]; exact List.mem_cons_self _ _
      · exact List.mem_cons_of_mem _ (ih _ x h1)

theorem dedupeGo_not_seen (key : PyVal → String) :
    ∀ (xs : List PyVal) (seen : List String) (x : PyVal),
      x ∈ dedupeGo key xs seen → key x ∉ seen := by
  intro xs
  induction xs with
  | nil => intro seen x h; simp [dedupeGo] at h
  | cons y ys ih =>
    intro seen x h
    rw [dedupeGo] at h
    by_cases hs : key y ∈ seen
    · rw [if_pos hs] at h
      exact ih seen x h
    · rw [if_neg hs] at h
      rcases List.mem_cons.mp h with h1 | h1
      · rw [h1]; exact hs
      · intro hcon
        exact ih _ x h1 (List.mem_append_left _ hcon)

theorem dedupeGo_pairwise (key : PyVal → String) :
    ∀ (xs : List PyVal) (seen : List String),
      (dedupeGo key xs seen).Pairwise fun a b => key a ≠ key b := by
  intro xs
  induction xs with
  | nil => intro seen; simp [dedupeGo]
  | cons y ys ih =>
    intro seen
    rw [dedupeGo]
    by_cases hs : key y ∈ seen
    · rw [if_pos hs]; exact ih seen
    · rw [if_neg hs]
      refine List.Pairwise.cons ?_ (ih _)
      intro z hz
      have := dedupeGo_not_seen key ys (seen ++ [key y]) z hz
      intro hcon
      exact this (List.mem_append_right _ (by rw [← hcon]; exact List.mem_singleton.mpr rfl))

theorem dedupeGo_eq_self (key : PyVal → String) :
    ∀ (xs : List PyVal) (seen : List String),
      xs.Pairwise (fun a b => key a ≠ key b) → (∀ x ∈ xs, key x ∉ seen) →
      dedupeGo key xs seen = xs := by
  intro xs
  induction xs with
  | nil => intro seen _ _; rfl
  | cons y ys ih =>
    intro seen hp hseen
    rw [dedupeGo, if_neg (hseen y (List.mem_cons_self y ys))]
    congr 1
    rcases List.pairwise_cons.mp hp with ⟨hy, hp'⟩
    refine ih _ hp' ?_
    intro x hx
    intro hcon
    rcases List.mem_append.mp hcon with h1 | h1
    · exact hseen x (List.mem_cons_of_mem _ hx) h1
    · exact hy x hx (List.mem_singleton.mp h1).symm

theorem dedupeList_idem (xs : List PyVal) : dedupeList (dedupeList xs) = dedupeList xs :=
  dedupeGo_eq_self pyRepr (dedupeGo pyRepr xs []) []
    (dedupeGo_pairwise pyRepr xs []) (fun _ _ => List.not_mem_nil _)

theorem dedupeList_subset {xs : List PyVal} {x : PyVal} (h : x ∈ dedupeList xs) : x ∈ xs :=
  dedupeGo_subset pyRepr xs [] x h

theorem dedupeList_ne_nil {x : PyVal} {xs : List PyVal} :
    dedupeList (x :: xs) ≠ [] := by
  rw [dedupeList, dedupeGo, if_neg (List.not_mem_nil _)]
  exact List.cons_ne_nil _ _

/-! ### Phone-cleaning stability -/

theorem digit_plus_not_ws {c : Char} (h : (c.isDigit || c == '+') = true) :
    c.isWhitespace = false := by
  cases hw : c.isWhitespace
  · rfl
  · exfalso
    have hc : ((c = ' ' ∨ c = '\t') ∨ c = '\x0d') ∨ c = '\n' := by
      simpa [Char.isWhitespace] using hw
    rcases hc with ((rfl | rfl) | rfl) | rfl <;> simp at h

theorem pyStrip_empty : pyStrip "" = "" := rfl

theorem normalizePhone_strip {n : String} (hn : pyStrip n = n) :
    pyStrip (normalizePhoneNumber n) = normalizePhoneNumber n := by
  unfold normalizePhoneNumber
  by_cases he : (n.data.filter fun c => c.isDigit || c == '+').isEmpty
  · rw [if_pos he]; exact hn
  · rw [if_neg he]
    apply pyStrip_of_no_ws
    intro c hc
    have hc2 : c ∈ n.data.filter fun c => c.isDigit || c == '+' := hc
    exact digit_plus_not_ws (List.mem_filter.mp hc2).2

theorem normalizePhone_idem (n : String) :
    normalizePhoneNumber (normalizePhoneNumber n) = normalizePhoneNumber n := by
  by_cases he : (n.data.filter fun c => c.isDigit || c == '+').isEmpty
  · have h1 : normalizePhoneNumber n = n := by
      unfold normalizePhoneNumber; rw [if_pos he]
    rw [h1, h1]
  · have h1 : normalizePhoneNumber n = String.mk (n.data.filter fun c => c.isDigit || c == '+') := by
      unfold normalizePhoneNumber; rw [if_neg he]
    rw [h1]
    unfold normalizePhoneNumber
    have h2 : (String.mk (n.data.filter fun c => c.isDigit || c == '+')).data.filter
        (fun c => c.isDigit || c == '+') = n.data.filter fun c => c.isDigit || c == '+' :=
      List.filter_eq_self.mpr fun c hc => (List.mem_filter.mp hc).2
    rw [h2, if_neg he]

theorem normalizePhone_ne_empty {n : String} (hn : n ≠ "") :
    normalizePhoneNumber n ≠ "" := by
  unfold normalizePhoneNumber
  by_cases he : (n.data.filter fun c => c.isDigit || c == '+').isEmpty
  · rw [if_pos he]; exact hn
  · rw [if_neg he]
    intro hcon
    have : (n.data.filter fun c => c.isDigit || c == '+') = [] :=
      congrArg String.data hcon
    rw [this] at he
    simp at he

theorem phoneTypeOf_get_none {kvs : List (String × PyVal)}
    (hg : pyGet kvs "type" = Option.none) : phoneTypeOf kvs = PyVal.none := by
  unfold phoneTypeOf
  rw [hg]
  rfl

theorem phoneTypeOf_get_some {kvs : List (String × PyVal)} {v : PyVal}
    (hg : pyGet kvs "type" = some v) (ht : pyTruthy v = true) :
    phoneTypeOf kvs = typeNorm v := by
  unfold phoneTypeOf
  rw [hg]
  show typeNorm (if pyTruthy v = true then v else PyVal.none) = _
  rw [if_pos ht]

theorem typeNorm_str {v : PyVal} {s : String} :
    typeNorm v = PyVal.str s → pyStrip s = s ∧ s ≠ "" := by
  cases v with
  | str s0 =>
    show (if pyStrip s0 = "" then PyVal.none else PyVal.str (pyStrip s0)) = PyVal.str s → _
    by_cases hs0 : pyStrip s0 = ""
    · rw [if_pos hs0]
      intro h
      exact PyVal.noConfusion h
    · rw [if_neg hs0]
      intro h
      injection h with h2
      constructor
      · rw [← h2]; exact pyStrip_idem s0
      · rw [← h2]; exact hs0
  | none => intro h; exact PyVal.noConfusion h
  | int n => intro h; exact PyVal.noConfusion h
  | float q => intro h; exact PyVal.noConfusion h
  | list xs => intro h; exact PyVal.noConfusion h
  | dict dd => intro h; exact PyVal.noConfusion h

theorem phoneTypeOf_str {kvs : List (String × PyVal)} {s : String} :
    phoneTypeOf kvs = PyVal.str s → pyStrip s = s ∧ s ≠ "" := by
  unfold phoneTypeOf
  cases hg : pyGet kvs "type" with
  | none => exact typeNorm_str
  | some v =>
    show typeNorm (if pyTruthy v = true then v else PyVal.none) = PyVal.str s → _
    exact typeNorm_str

/-- The type normalization of `_clean_phone` fixes its own output. -/
theorem phoneTypeOf_fix (kvs : List (String × PyVal)) :
    typeNorm (phoneTypeOf kvs) = phoneTypeOf kvs := by
  cases hty : phoneTypeOf kvs with
  | str s =>
    obtain ⟨hss, hsne⟩ := phoneTypeOf_str hty
    show (if pyStrip s = "" then PyVal.none else PyVal.str (pyStrip s)) = PyVal.str s
    rw [hss, if_neg hsne]
  | none => rfl
  | int n => rfl
  | float q => rfl
  | list xs => rfl
  | dict dd => rfl

theorem phoneTypePart_cases (kvs : List (String × PyVal)) :
    phoneTypePart kvs = [] ∨
      (phoneTypePart kvs = [("type", phoneTypeOf kvs)] ∧
        pyTruthy (phoneTypeOf kvs) = true) := by
  unfold phoneTypePart
  by_cases h : pyTruthy (phoneTypeOf kvs)
  · right; rw [if_pos h]; exact ⟨rfl, h⟩
  · left; rw [if_neg h]

theorem phoneExtPart_get_none {kvs : List (String × PyVal)}
    (hg : pyGet kvs "ext" = Option.none) : phoneExtPart kvs = [] := by
  unfold phoneExtPart
  rw [hg]

theorem phoneExtPart_get_some_true {kvs : List (String × PyVal)} {e : PyVal}
    (hg : pyGet kvs "ext" = some e) (ht : pyTruthy e = true) :
    phoneExtPart kvs = [("ext", PyVal.str (pyStrip (pyStr e)))] := by
  unfold phoneExtPart
  rw [hg]
  show (if pyTruthy e = true then [("ext", PyVal.str (pyStrip (pyStr e)))] else []) = _
  rw [if_pos ht]

theorem phoneExtPart_get_some_false {kvs : List (String × PyVal)} {e : PyVal}
    (hg : pyGet kvs "ext" = some e) (ht : pyTruthy e = false) :
    phoneExtPart kvs = [] := by
  unfold phoneExtPart
  rw [hg]
  show (if pyTruthy e = true then [("ext", PyVal.str (pyStrip (pyStr e)))] else []) = _
  rw [if_neg (by rw [ht]; exact Bool.false_ne_true)]

theorem str_truthy_of_ne {s : String} (h : s ≠ "") : pyTruthy (PyVal.str s) = true := by
  show (!s.isEmpty) = true
  cases hie : s.isEmpty
  · rfl
  · exact absurd ((String.isEmpty_iff _).mp hie) h

theorem phoneExtPart_cases (kvs : List (String × PyVal)) :
    phoneExtPart kvs = [] ∨
      ∃ e, pyGet kvs "ext" = some e ∧ pyTruthy e = true ∧
        phoneExtPart kvs = [("ext", PyVal.str (pyStrip (pyStr e)))] := by
  cases hg : pyGet kvs "ext" with
  | none => left; exact phoneExtPart_get_none hg
  | some e =>
    cases ht : pyTruthy e
    · left; exact phoneExtPart_get_some_false hg ht
    · right; exact ⟨e, rfl, ht, phoneExtPart_get_some_true hg ht⟩

theorem phoneTypePart_keys (kvs : List (String × PyVal)) :
    ∀ kv ∈ phoneTypePart kvs, kv.1 = "type" := by
  rcases phoneTypePart_cases kvs with h | ⟨h, _⟩ <;> rw [h]
  · intro kv hkv; simp at hkv
  · intro kv hkv
    rw [List.mem_singleton.mp hkv]

theorem phoneExtPart_keys (kvs : List (String × PyVal)) :
    ∀ kv ∈ phoneExtPart kvs, kv.1 = "ext" := by
  rcases phoneExtPart_cases kvs with h | ⟨e, _, _, h⟩ <;> rw [h]
  · intro kv hkv; simp at hkv
  · intro kv hkv
    rw [List.mem_singleton.mp hkv]

/-- The two optional parts only depend on the dict through their own key. -/
theorem phoneTypePart_congr {d₁ d₂ : List (String × PyVal)}
    (h : pyGet d₁ "type" = pyGet d₂ "type") : phoneTypePart d₁ = phoneTypePart d₂ := by
  unfold phoneTypePart phoneTypeOf
  rw [h]

theorem phoneExtPart_congr {d₁ d₂ : List (String × PyVal)}
    (h : pyGet d₁ "ext" = pyGet d₂ "ext") : phoneExtPart d₁ = phoneExtPart d₂ := by
  unfold phoneExtPart
  rw [h]

/-- Re-extracting the type part from a cleaned phone reproduces it. -/
theorem phoneTypePart_proj (kvs : List (String × PyVal)) :
    phoneTypePart (phoneTypePart kvs) = phoneTypePart kvs := by
  rcases phoneTypePart_cases kvs with hc | ⟨hc, htv⟩
  · rw [hc]
    have h0 : phoneTypeOf ([] : List (String × PyVal)) = PyVal.none :=
      phoneTypeOf_get_none rfl
    unfold phoneTypePart
    rw [h0]
    rfl
  · rw [hc]
    have hg : pyGet [("type", phoneTypeOf kvs)] "type" = some (phoneTypeOf kvs) := by
      rw [pyGet_cons, if_pos rfl]
    have h1 : phoneTypeOf [("type", phoneTypeOf kvs)] = phoneTypeOf kvs := by
      rw [phoneTypeOf_get_some hg htv]
      exact phoneTypeOf_fix kvs
    unfold phoneTypePart
    rw [h1, if_pos htv]

/-- Re-extracting the ext part from a cleaned phone reproduces it, for
phones whose truthy `ext` does not trim to the empty string. -/
theorem phoneExtPart_proj (kvs : List (String × PyVal)) (hex : extSafeD kvs) :
    phoneExtPart (phoneExtPart kvs) = phoneExtPart kvs := by
  rcases phoneExtPart_cases kvs with hc | ⟨e, hge, hte, hc⟩
  · rw [hc]
    exact phoneExtPart_get_none rfl
  · rw [hc]
    have hesne : pyStrip (pyStr e) ≠ "" := by
      unfold extSafeD at hex
      rw [hge] at hex
      exact hex hte
    have hg : pyGet [("ext", PyVal.str (pyStrip (pyStr e)))] "ext" =
        some (PyVal.str (pyStrip (pyStr e))) := by
      rw [pyGet_cons, if_pos rfl]
    have htr : pyTruthy (PyVal.str (pyStrip (pyStr e))) = true :=
      str_truthy_of_ne hesne
    rw [phoneExtPart_get_some_true hg htr]
    show [("ext", PyVal.str (pyStrip (pyStrip (pyStr e))))] = _
    rw [pyStrip_idem]

theorem cleanPhone_stable {kvs d : List (String × PyVal)} (hex : extSafeD kvs)
    (h : cleanPhone kvs = some d) : cleanPhone d = some d := by
  simp only [cleanPhone] at h
  by_cases hne : pyStrip (pyStr (pyGetD kvs "number" (PyVal.str ""))) = ""
  · rw [if_pos hne] at h; exact absurd h (by simp)
  · rw [if_neg hne] at h
    injection h with hd
    -- name the number and the two optional parts of the cleaned phone
    revert hd
    generalize hN : normalizePhoneNumber (pyStrip (pyStr (pyGetD kvs "number" (PyVal.str "")))) = N
    intro hd
    subst hd
    have hg1 : pyGet (("number", PyVal.str N) :: (phoneTypePart kvs ++ phoneExtPart kvs))
        "number" = some (PyVal.str N) := by
      rw [pyGet_cons, if_pos rfl]
    have hval : pyGetD (("number", PyVal.str N) :: (phoneTypePart kvs ++ phoneExtPart kvs))
        "number" (PyVal.str "") = PyVal.str N := by
      rw [pyGetD, hg1]; rfl
    have hNstrip : pyStrip N = N := by
      rw [← hN]
      exact normalizePhone_strip (pyStrip_idem _)
    have hNne : N ≠ "" := by
      rw [← hN]
      exact normalizePhone_ne_empty hne
    have hNidem : normalizePhoneNumber N = N := by
      rw [← hN]
      exact normalizePhone_idem _
    have hgtype : pyGet (("number", PyVal.str N) :: (phoneTypePart kvs ++ phoneExtPart kvs))
        "type" = pyGet (phoneTypePart kvs) "type" := by
      rw [pyGet_cons, if_neg (by simp), pyGet_append]
      cases hg : pyGet (phoneTypePart kvs) "type" with
      | none =>
        exact pyGet_eq_none_of_keys fun kv hkv => by
          rw [phoneExtPart_keys kvs kv hkv]; simp
      | some v => rfl
    have hgext : pyGet (("number", PyVal.str N) :: (phoneTypePart kvs ++ phoneExtPart kvs))
        "ext" = pyGet (phoneExtPart kvs) "ext" := by
      rw [pyGet_cons, if_neg (by simp), pyGet_append]
      rw [pyGet_eq_none_of_keys fun kv hkv => by
        rw [phoneTypePart_keys kvs kv hkv]; simp]
    have htp : phoneTypePart (("number", PyVal.str N) ::
        (phoneTypePart kvs ++ phoneExtPart kvs)) = phoneTypePart kvs := by
      rw [phoneTypePart_congr hgtype]
      exact phoneTypePart_proj kvs
    have hep : phoneExtPart (("number", PyVal.str N) ::
        (phoneTypePart kvs ++ phoneExtPart kvs)) = phoneExtPart kvs := by
      rw [phoneExtPart_congr hgext]
      exact phoneExtPart_proj kvs hex
    simp only [cleanPhone, hval, pyStr, hNstrip]
    rw [if_neg hNne, hNidem, htp, hep]

/-- A `filterMap` whose function fixes every element of the list is the
identity on it. -/
theorem filterMap_eq_self {f : PyVal → Option PyVal} :
    ∀ {l : List PyVal}, (∀ x ∈ l, f x = some x) → l.filterMap f = l := by
  intro l
  induction l with
  | nil => intro _; rfl
  | cons y ys ih =>
    intro h
    rw [List.filterMap_cons, h y (List.mem_cons_self y ys)]
    rw [ih fun x hx => h x (List.mem_cons_of_mem _ hx)]

/-- A cleaned phone always starts with its `number` entry. -/
theorem cleanPhone_some_shape {kvs d : List (String × PyVal)}
    (h : cleanPhone kvs = some d) :
    ∃ N tl, d = ("number", PyVal.str N) :: tl := by
  simp only [cleanPhone] at h
  by_cases hne : pyStrip (pyStr (pyGetD kvs "number" (PyVal.str ""))) = ""
  · rw [if_pos hne] at h
    exact absurd h (by simp)
  · rw [if_neg hne] at h
    injection h with hd
    exact ⟨_, _, hd.symm⟩

theorem cleanPhoneVal_mem_stable {rs : List PyVal} {x : PyVal}
    (hsafe : ∀ r ∈ rs, extSafe r) (hx : x ∈ cleanedPhones rs) :
    cleanPhoneVal x = some x := by
  rw [cleanedPhones] at hx
  obtain ⟨a, ha, hfa⟩ := List.mem_filterMap.mp hx
  cases a with
  | dict kvs =>
    have hsd : extSafeD kvs := hsafe _ ha
    rw [cleanPhoneVal] at hfa
    cases hcp : cleanPhone kvs with
    | none => rw [hcp] at hfa; exact absurd hfa (by simp)
    | some d =>
      rw [hcp] at hfa
      change (if pyTruthy (PyVal.dict d) = true then some (PyVal.dict d)
        else Option.none) = some x at hfa
      by_cases htd : pyTruthy (PyVal.dict d) = true
      · rw [if_pos htd] at hfa
        injection hfa with hx2
        have hstable : cleanPhone d = some d := cleanPhone_stable hsd hcp
        rw [← hx2, cleanPhoneVal, hstable]
        change (if pyTruthy (PyVal.dict d) = true then some (PyVal.dict d)
          else Option.none) = some (PyVal.dict d)
        rw [if_pos htd]
      · rw [if_neg htd] at hfa
        exact absurd hfa (by simp)
  | none => exact absurd hfa (by simp [cleanPhoneVal])
  | str s => exact absurd hfa (by simp [cleanPhoneVal])
  | int n => exact absurd hfa (by simp [cleanPhoneVal])
  | float q => exact absurd hfa (by simp [cleanPhoneVal])
  | list xs => exact absurd hfa (by simp [cleanPhoneVal])

/-- The phone-cleaning stage is idempotent on ext-safe phone lists. -/
theorem cleanPhonesStage_idem_of_safe {rs : List PyVal}
    (hsafe : ∀ r ∈ rs, extSafe r) :
    cleanPhonesStage (cleanPhonesStage rs) = cleanPhonesStage rs := by
  rw [cleanPhonesStage, cleanPhonesStage]
  have h1 : cleanedPhones (dedupeList (cleanedPhones rs)) = dedupeList (cleanedPhones rs) := by
    rw [cleanedPhones]
    exact filterMap_eq_self fun x hx =>
      cleanPhoneVal_mem_stable hsafe (dedupeList_subset hx)
  rw [h1]
  exact dedupeList_idem _

/-! ### Shapes of the sections of `clean_agent_record` -/

theorem ne_nil_of_not_isEmpty {α : Type} {l : List α} (h : ¬l.isEmpty = true) :
    l ≠ [] := by
  intro hcon
  rw [hcon] at h
  exact h rfl

theorem scalarSection_mem {agent : List (String × PyVal)} {kv : String × PyVal}
    (h : kv ∈ scalarSection agent) :
    kv.1 ∈ scalarFields ∧ ∃ s, kv.2 = PyVal.str s := by
  obtain ⟨field, hf, hfa⟩ := List.mem_filterMap.mp h
  cases hg : pyGet agent field with
  | none => rw [hg] at hfa; exact absurd hfa (by simp)
  | some v =>
    rw [hg] at hfa
    change (if pyTruthy v = true then some (field, PyVal.str (collapseWS (pyStr v)))
      else Option.none) = some kv at hfa
    by_cases ht : pyTruthy v = true
    · rw [if_pos ht] at hfa
      injection hfa with h2
      rw [← h2]
      exact ⟨hf, _, rfl⟩
    · rw [if_neg ht] at hfa
      exact absurd hfa (by simp)

theorem firstYearSection_mem {agent : List (String × PyVal)} {kv : String × PyVal} :
    kv ∈ firstYearSection agent →
      kv.1 = "first_year" ∧ ∃ n : Int, n ≠ 0 ∧ kv.2 = PyVal.int n := by
  unfold firstYearSection
  cases hi : toInt? (pyGetD agent "first_year" PyVal.none) with
  | none => intro h; exact absurd h (List.not_mem_nil kv)
  | some n =>
    show kv ∈ (if n = 0 then [] else [("first_year", PyVal.int n)]) → _
    by_cases hz : n = 0
    · rw [if_pos hz]
      intro h
      exact absurd h (List.not_mem_nil kv)
    · rw [if_neg hz]
      intro h
      rw [List.mem_singleton.mp h]
      exact ⟨rfl, n, hz, rfl⟩

theorem reviewCountSection_mem {agent : List (String × PyVal)} {kv : String × PyVal} :
    kv ∈ reviewCountSection agent →
      kv.1 = "review_count" ∧ ∃ n : Int, kv.2 = PyVal.int n := by
  unfold reviewCountSection
  cases hi : toInt? (pyGetD agent "review_count" PyVal.none) with
  | none => intro h; exact absurd h (List.not_mem_nil kv)
  | some n =>
    intro h
    rw [List.mem_singleton.mp h]
    exact ⟨rfl, n, rfl⟩

theorem agentRatingSection_mem {agent : List (String × PyVal)} {kv : String × PyVal} :
    kv ∈ agentRatingSection agent →
      kv.1 = "agent_rating" ∧ ∃ q : ℚ, kv.2 = PyVal.float q := by
  unfold agentRatingSection
  cases hi : toFloat? (pyGetD agent "agent_rating" PyVal.none) with
  | none => intro h; exact absurd h (List.not_mem_nil kv)
  | some q =>
    intro h
    rw [List.mem_singleton.mp h]
    exact ⟨rfl, q, rfl⟩

theorem mem_cleanedPhones_shape {rs : List PyVal} {x : PyVal}
    (hx : x ∈ cleanedPhones rs) : ∃ dkvs, dkvs ≠ [] ∧ x = PyVal.dict dkvs := by
  rw [cleanedPhones] at hx
  obtain ⟨a, _, hfa⟩ := List.mem_filterMap.mp hx
  cases a with
  | dict kvs =>
    rw [cleanPhoneVal] at hfa
    cases hcp : cleanPhone kvs with
    | none => rw [hcp] at hfa; exact absurd hfa (by simp)
    | some d =>
      rw [hcp] at hfa
      change (if pyTruthy (PyVal.dict d) = true then some (PyVal.dict d)
        else Option.none) = some x at hfa
      by_cases htd : pyTruthy (PyVal.dict d) = true
      · rw [if_pos htd] at hfa
        injection hfa with h2
        obtain ⟨N, tl, hshape⟩ := cleanPhone_some_shape hcp
        refine ⟨d, ?_, h2.symm⟩
        rw [hshape]
        exact List.cons_ne_nil _ _
      · rw [if_neg htd] at hfa
        exact absurd hfa (by simp)
  | none => exact absurd hfa (by simp [cleanPhoneVal])
  | str s => exact absurd hfa (by simp [cleanPhoneVal])
  | int n => exact absurd hfa (by simp [cleanPhoneVal])
  | float q => exact absurd hfa (by simp [cleanPhoneVal])
  | list xs => exact absurd hfa (by simp [cleanPhoneVal])

theorem phonesSection_mem {agent : List (String × PyVal)} {kv : String × PyVal} :
    kv ∈ phonesSection agent →
      kv.1 = "phones" ∧ ∃ ps, ps ≠ [] ∧ kv.2 = PyVal.list ps ∧
        ∀ p ∈ ps, ∃ pk, pk ≠ [] ∧ p = PyVal.dict pk := by
  unfold phonesSection
  cases hv : pyOrEmptyList agent "phones" with
  | list rs =>
    show kv ∈ (if (cleanedPhones rs).isEmpty = true then []
      else [("phones", PyVal.list (dedupeList (cleanedPhones rs)))]) → _
    by_cases he : (cleanedPhones rs).isEmpty
    · rw [if_pos he]
      intro h
      exact absurd h (List.not_mem_nil kv)
    · rw [if_neg he]
      intro h
      rw [List.mem_singleton.mp h]
      refine ⟨rfl, dedupeList (cleanedPhones rs), ?_, rfl, ?_⟩
      · obtain ⟨p, ps, hps⟩ := List.exists_cons_of_ne_nil (ne_nil_of_not_isEmpty he)
        rw [hps]
        exact dedupeList_ne_nil
      · intro p hp
        exact mem_cleanedPhones_shape (dedupeList_subset hp)
  | none => intro h; exact absurd h (List.not_mem_nil kv)
  | str s => intro h; exact absurd h (List.not_mem_nil kv)
  | int n => intro h; exact absurd h (List.not_mem_nil kv)
  | float q => intro h; exact absurd h (List.not_mem_nil kv)
  | dict kvs => intro h; exact absurd h (List.not_mem_nil kv)

theorem addressSection_mem {agent : List (String × PyVal)} {kv : String × PyVal} :
    kv ∈ addressSection agent →
      kv.1 = "address" ∧ ∃ a, a ≠ [] ∧ kv.2 = PyVal.dict a := by
  unfold addressSection
  cases hg : pyGet agent "address" with
  | none => intro h; exact absurd h (List.not_mem_nil kv)
  | some v =>
    cases v with
    | dict kvs =>
      show kv ∈ (if (cleanAddress kvs).isEmpty = true then []
        else [("address", PyVal.dict (cleanAddress kvs))]) → _
      by_cases he : (cleanAddress kvs).isEmpty
      · rw [if_pos he]
        intro h
        exact absurd h (List.not_mem_nil kv)
      · rw [if_neg he]
        intro h
        rw [List.mem_singleton.mp h]
        exact ⟨rfl, cleanAddress kvs, ne_nil_of_not_isEmpty he, rfl⟩
    | none => intro h; exact absurd h (List.not_mem_nil kv)
    | str s => intro h; exact absurd h (List.not_mem_nil kv)
    | int n => intro h; exact absurd h (List.not_mem_nil kv)
    | float q => intro h; exact absurd h (List.not_mem_nil kv)
    | list xs => intro h; exact absurd h (List.not_mem_nil kv)

theorem officeSection_mem {agent : List (String × PyVal)} {kv : String × PyVal} :
    kv ∈ officeSection agent →
      kv.1 = "office" ∧ ∃ a, a ≠ [] ∧ kv.2 = PyVal.dict a := by
  unfold officeSection
  cases hg : pyGet agent "office" with
  | none => intro h; exact absurd h (List.not_mem_nil kv)
  | some v =>
    cases v with
    | dict kvs =>
      show kv ∈ (if (cleanOffice kvs).isEmpty = true then []
        else [("office", PyVal.dict (cleanOffice kvs))]) → _
      by_cases he : (cleanOffice kvs).isEmpty
      · rw [if_pos he]
        intro h
        exact absurd h (List.not_mem_nil kv)
      · rw [if_neg he]
        intro h
        rw [List.mem_singleton.mp h]
        exact ⟨rfl, cleanOffice kvs, ne_nil_of_not_isEmpty he, rfl⟩
    | none => intro h; exact absurd h (List.not_mem_nil kv)
    | str s => intro h; exact absurd h (List.not_mem_nil kv)
    | int n => intro h; exact absurd h (List.not_mem_nil kv)
    | float q => intro h; exact absurd h (List.not_mem_nil kv)
    | list xs => intro h; exact absurd h (List.not_mem_nil kv)

theorem specializationsSection_mem {agent : List (String × PyVal)} {kv : String × PyVal} :
    kv ∈ specializationsSection agent →
      kv.1 = "specializations" ∧ ∃ ss, ss ≠ [] ∧ kv.2 = PyVal.list ss ∧
        ∀ x ∈ ss, ∃ t, x = PyVal.str t := by
  unfold specializationsSection
  cases hv : pyOrEmptyList agent "specializations" with
  | list ss =>
    show kv ∈ (if ((ss.filter pyTruthy).map fun s =>
        PyVal.str (pyStrip (pyStr s))).isEmpty = true then []
      else [("specializations", PyVal.list (dedupeList ((ss.filter pyTruthy).map fun s =>
        PyVal.str (pyStrip (pyStr s)))))]) → _
    by_cases he : ((ss.filter pyTruthy).map fun s => PyVal.str (pyStrip (pyStr s))).isEmpty
    · rw [if_pos he]
      intro h
      exact absurd h (List.not_mem_nil kv)
    · rw [if_neg he]
      intro h
      rw [List.mem_singleton.mp h]
      refine ⟨rfl, _, ?_, rfl, ?_⟩
      · obtain ⟨p, ps, hps⟩ := List.exists_cons_of_ne_nil (ne_nil_of_not_isEmpty he)
        rw [hps]
        exact dedupeList_ne_nil
      · intro x hx
        have hx2 := dedupeList_subset hx
        obtain ⟨s, _, hs⟩ := List.mem_map.mp hx2
        exact ⟨_, hs.symm⟩
  | none => intro h; exact absurd h (List.not_mem_nil kv)
  | str s => intro h; exact absurd h (List.not_mem_nil kv)
  | int n => intro h; exact absurd h (List.not_mem_nil kv)
  | float q => intro h; exact absurd h (List.not_mem_nil kv)
  | dict kvs => intro h; exact absurd h (List.not_mem_nil kv)

theorem brokerSection_mem {agent : List (String × PyVal)} {kv : String × PyVal} :
    kv ∈ brokerSection agent →
      kv.1 = "broker" ∧ ∃ b, b ≠ [] ∧ kv.2 = PyVal.dict b := by
  unfold brokerSection
  cases hg : pyGet agent "broker" with
  | none => intro h; exact absurd h (List.not_mem_nil kv)
  | some v =>
    cases v with
    | dict kvs =>
      show kv ∈ (if (kvs.filterMap fun kv =>
          if pyTruthy kv.2 = true then some (kv.1, PyVal.str (collapseWS (pyStr kv.2)))
          else Option.none).isEmpty = true then []
        else [("broker", PyVal.dict (kvs.filterMap fun kv =>
          if pyTruthy kv.2 = true then some (kv.1, PyVal.str (collapseWS (pyStr kv.2)))
          else Option.none))]) → _
      by_cases he : (kvs.filterMap fun kv =>
          if pyTruthy kv.2 = true then some (kv.1, PyVal.str (collapseWS (pyStr kv.2)))
          else Option.none).isEmpty
      · rw [if_pos he]
        intro h
        exact absurd h (List.not_mem_nil kv)
      · rw [if_neg he]
        intro h
        rw [List.mem_singleton.mp h]
        exact ⟨rfl, _, ne_nil_of_not_isEmpty he, rfl⟩
    | none => intro h; exact absurd h (List.not_mem_nil kv)
    | str s => intro h; exact absurd h (List.not_mem_nil kv)
    | int n => intro h; exact absurd h (List.not_mem_nil kv)
    | float q => intro h; exact absurd h (List.not_mem_nil kv)
    | list xs => intro h; exact absurd h (List.not_mem_nil kv)

theorem recentlySoldSection_mem {agent : List (String × PyVal)} {kv : String × PyVal} :
    kv ∈ recentlySoldSection agent →
      kv.1 = "recently_sold" ∧ ∃ a, kv.2 = PyVal.dict a := by
  unfold recentlySoldSection
  cases hg : pyGet agent "recently_sold" with
  | none => intro h; exact absurd h (List.not_mem_nil kv)
  | some v =>
    cases v with
    | dict kvs =>
      intro h
      have h2 := List.mem_singleton.mp h
      rw [h2]
      exact ⟨rfl, _, rfl⟩
    | none => intro h; exact absurd h (List.not_mem_nil kv)
    | str s => intro h; exact absurd h (List.not_mem_nil kv)
    | int n => intro h; exact absurd h (List.not_mem_nil kv)
    | float q => intro h; exact absurd h (List.not_mem_nil kv)
    | list xs => intro h; exact absurd h (List.not_mem_nil kv)

theorem forSalePriceSection_mem {agent : List (String × PyVal)} {kv : String × PyVal} :
    kv ∈ forSalePriceSection agent →
      kv.1 = "for_sale_price" ∧ ∃ a, kv.2 = PyVal.dict a := by
  unfold forSalePriceSection
  cases hg : pyGet agent "for_sale_price" with
  | none => intro h; exact absurd h (List.not_mem_nil kv)
  | some v =>
    cases v with
    | dict kvs =>
      intro h
      have h2 := List.mem_singleton.mp h
      rw [h2]
      exact ⟨rfl, _, rfl⟩
    | none => intro h; exact absurd h (List.not_mem_nil kv)
    | str s => intro h; exact absurd h (List.not_mem_nil kv)
    | int n => intro h; exact absurd h (List.not_mem_nil kv)
    | float q => intro h; exact absurd h (List.not_mem_nil kv)
    | list xs => intro h; exact absurd h (List.not_mem_nil kv)

theorem cleanReview_shape {review x : PyVal} :
    cleanReview review = some x → ∃ rk, rk ≠ [] ∧ x = PyVal.dict rk := by
  have key : ∀ r2 : List (String × PyVal),
      (if r2.isEmpty then Option.none else some (PyVal.dict r2)) = some x →
      ∃ rk, rk ≠ [] ∧ x = PyVal.dict rk := by
    intro r2 h
    by_cases he : r2.isEmpty
    · rw [if_pos he] at h
      exact Option.noConfusion h
    · rw [if_neg he] at h
      injection h with h2
      exact ⟨r2, ne_nil_of_not_isEmpty he, h2.symm⟩
  unfold cleanReview
  cases review with
  | dict rkvs => exact key _
  | none => exact fun h => Option.noConfusion h
  | str s => exact fun h => Option.noConfusion h
  | int n => exact fun h => Option.noConfusion h
  | float q => exact fun h => Option.noConfusion h
  | list xs => exact fun h => Option.noConfusion h

theorem reviewsSection_mem {agent : List (String × PyVal)} {kv : String × PyVal} :
    kv ∈ reviewsSection agent →
      kv.1 = "reviews" ∧ ∃ rs, rs ≠ [] ∧ kv.2 = PyVal.list rs ∧
        ∀ r ∈ rs, ∃ rk, rk ≠ [] ∧ r = PyVal.dict rk := by
  unfold reviewsSection
  cases hg : pyGet agent "reviews" with
  | none => intro h; exact absurd h (List.not_mem_nil kv)
  | some v =>
    cases v with
    | list revs =>
      show kv ∈ (if (revs.filterMap cleanReview).isEmpty = true then []
        else [("reviews", PyVal.list (revs.filterMap cleanReview))]) → _
      by_cases he : (revs.filterMap cleanReview).isEmpty
      · rw [if_pos he]
        intro h
        exact absurd h (List.not_mem_nil kv)
      · rw [if_neg he]
        intro h
        rw [List.mem_singleton.mp h]
        refine ⟨rfl, _, ne_nil_of_not_isEmpty he, rfl, ?_⟩
        intro r hr
        obtain ⟨a, _, ha⟩ := List.mem_filterMap.mp hr
        exact cleanReview_shape ha
    | none => intro h; exact absurd h (List.not_mem_nil kv)
    | str s => intro h; exact absurd h (List.not_mem_nil kv)
    | int n => intro h; exact absurd h (List.not_mem_nil kv)
    | float q => intro h; exact absurd h (List.not_mem_nil kv)
    | dict kvs => intro h; exact absurd h (List.not_mem_nil kv)

theorem recommendationsSection_mem {agent : List (String × PyVal)} {kv : String × PyVal} :
    kv ∈ recommendationsSection agent →
      kv.1 = "recommendations" ∧ ∃ rs, rs ≠ [] ∧ kv.2 = PyVal.list rs ∧
        ∀ r ∈ rs, ∃ rk, r = PyVal.dict rk := by
  unfold recommendationsSection
  cases hg : pyGet agent "recommendations" with
  | none => intro h; exact absurd h (List.not_mem_nil kv)
  | some v =>
    cases v with
    | list recs =>
      show kv ∈ (if (recs.filterMap fun item =>
          match item with
          | PyVal.dict kvs => some (PyVal.dict kvs)
          | _ => Option.none).isEmpty = true then []
        else [("recommendations", PyVal.list (recs.filterMap fun item =>
          match item with
          | PyVal.dict kvs => some (PyVal.dict kvs)
          | _ => Option.none))]) → _
      by_cases he : (recs.filterMap fun item =>
          match item with
          | PyVal.dict kvs => some (PyVal.dict kvs)
          | _ => Option.none).isEmpty
      · rw [if_pos he]
        intro h
        exact absurd h (List.not_mem_nil kv)
      · rw [if_neg he]
        intro h
        rw [List.mem_singleton.mp h]
        refine ⟨rfl, _, ne_nil_of_not_isEmpty he, rfl, ?_⟩
        intro r hr
        obtain ⟨a, _, ha⟩ := List.mem_filterMap.mp hr
        cases a with
        | dict kvs =>
          injection ha with h2
          exact ⟨kvs, h2.symm⟩
        | none => exact absurd ha (by simp)
        | str s => exact absurd ha (by simp)
        | int n => exact absurd ha (by simp)
        | float q => exact absurd ha (by simp)
        | list xs => exact absurd ha (by simp)
    | none => intro h; exact absurd h (List.not_mem_nil kv)
    | str s => intro h; exact absurd h (List.not_mem_nil kv)
    | int n => intro h; exact absurd h (List.not_mem_nil kv)
    | float q => intro h; exact absurd h (List.not_mem_nil kv)
    | dict kvs => intro h; exact absurd h (List.not_mem_nil kv)

/-- The field-level invariant that `clean_agent_record` actually
guarantees: every present field is of its canonical per-key shape and is
never a bare `None`. -/
theorem cleanAgentRecord_shape {agent : List (String × PyVal)} {kv : String × PyVal}
    (h : kv ∈ cleanAgentRecord agent) :
    kv.2 ≠ PyVal.none ∧ fieldShapeOK kv.1 kv.2 := by
  rw [cleanAgentRecord] at h
  rcases List.mem_append.mp h with h | h
  · rcases List.mem_append.mp h with h | h
    · rcases List.mem_append.mp h with h | h
      · rcases List.mem_append.mp h with h | h
        · rcases List.mem_append.mp h with h | h
          · rcases List.mem_append.mp h with h | h
            · rcases List.mem_append.mp h with h | h
              · rcases List.mem_append.mp h with h | h
                · rcases List.mem_append.mp h with h | h
                  · rcases List.mem_append.mp h with h | h
                    · rcases List.mem_append.mp h with h | h
                      · rcases List.mem_append.mp h with h | h
                        · obtain ⟨hk, s, hv⟩ := scalarSection_mem h
                          refine ⟨by rw [hv]; exact fun hcon => PyVal.noConfusion hcon, ?_⟩
                          unfold fieldShapeOK
                          rw [if_pos hk]
                          exact ⟨s, hv⟩
                        · obtain ⟨hk, n, hn, hv⟩ := firstYearSection_mem h
                          refine ⟨by rw [hv]; exact fun hcon => PyVal.noConfusion hcon, ?_⟩
                          rw [hk]
                          unfold fieldShapeOK
                          rw [if_neg (by decide), if_pos rfl]
                          exact ⟨n, hn, hv⟩
                      · obtain ⟨hk, n, hv⟩ := reviewCountSection_mem h
                        refine ⟨by rw [hv]; exact fun hcon => PyVal.noConfusion hcon, ?_⟩
                        rw [hk]
                        unfold fieldShapeOK
                        rw [if_neg (by decide), if_neg (by decide), if_pos rfl]
                        exact ⟨n, hv⟩
                    · obtain ⟨hk, q, hv⟩ := agentRatingSection_mem h
                      refine ⟨by rw [hv]; exact fun hcon => PyVal.noConfusion hcon, ?_⟩
                      rw [hk]
                      unfold fieldShapeOK
                      rw [if_neg (by decide), if_neg (by decide), if_neg (by decide), if_pos rfl]
                      exact ⟨q, hv⟩
                  · obtain ⟨hk, ps, hne, hv, hps⟩ := phonesSection_mem h
                    refine ⟨by rw [hv]; exact fun hcon => PyVal.noConfusion hcon, ?_⟩
                    rw [hk]
                    unfold fieldShapeOK
                    rw [if_neg (by decide), if_neg (by decide), if_neg (by decide), if_neg (by decide), if_pos rfl]
                    exact ⟨ps, hne, hv, hps⟩
                · obtain ⟨hk, a, hne, hv⟩ := addressSection_mem h
                  refine ⟨by rw [hv]; exact fun hcon => PyVal.noConfusion hcon, ?_⟩
                  rw [hk]
                  unfold fieldShapeOK
                  rw [if_neg (by decide), if_neg (by decide), if_neg (by decide), if_neg (by decide), if_neg (by decide), if_pos (by left; rfl)]
                  exact ⟨a, hne, hv⟩
              · obtain ⟨hk, a, hne, hv⟩ := officeSection_mem h
                refine ⟨by rw [hv]; exact fun hcon => PyVal.noConfusion hcon, ?_⟩
                rw [hk]
                unfold fieldShapeOK
                rw [if_neg (by decide), if_neg (by decide), if_neg (by decide), if_neg (by decide), if_neg (by decide), if_pos (by right; left; rfl)]
                exact ⟨a, hne, hv⟩
            · obtain ⟨hk, ss, hne, hv, hss⟩ := specializationsSection_mem h
              refine ⟨by rw [hv]; exact fun hcon => PyVal.noConfusion hcon, ?_⟩
              rw [hk]
              unfold fieldShapeOK
              rw [if_neg (by decide), if_neg (by decide), if_neg (by decide), if_neg (by decide), if_neg (by decide), if_neg (by decide), if_pos rfl]
              exact ⟨ss, hne, hv, hss⟩
          · obtain ⟨hk, b, hne, hv⟩ := brokerSection_mem h
            refine ⟨by rw [hv]; exact fun hcon => PyVal.noConfusion hcon, ?_⟩
            rw [hk]
            unfold fieldShapeOK
            rw [if_neg (by decide), if_neg (by decide), if_neg (by decide), if_neg (by decide), if_neg (by decide), if_pos (by right; right; rfl)]
            exact ⟨b, hne, hv⟩
        · obtain ⟨hk, a, hv⟩ := recentlySoldSection_mem h
          refine ⟨by rw [hv]; exact fun hcon => PyVal.noConfusion hcon, ?_⟩
          rw [hk]
          unfold fieldShapeOK
          rw [if_neg (by decide), if_neg (by decide), if_neg (by decide), if_neg (by decide), if_neg (by decide), if_neg (by decide), if_neg (by decide), if_pos (by left; rfl)]
          exact ⟨a, hv⟩
      · obtain ⟨hk, a, hv⟩ := forSalePriceSection_mem h
        refine ⟨by rw [hv]; exact fun hcon => PyVal.noConfusion hcon, ?_⟩
        rw [hk]
        unfold fieldShapeOK
        rw [if_neg (by decide), if_neg (by decide), if_neg (by decide), if_neg (by decide), if_neg (by decide), if_neg (by decide), if_neg (by decide), if_pos (by right; rfl)]
        exact ⟨a, hv⟩
    · obtain ⟨hk, rs, hne, hv, hrs⟩ := reviewsSection_mem h
      refine ⟨by rw [hv]; exact fun hcon => PyVal.noConfusion hcon, ?_⟩
      rw [hk]
      unfold fieldShapeOK
      rw [if_neg (by decide), if_neg (by decide), if_neg (by decide), if_neg (by decide), if_neg (by decide), if_neg (by decide), if_neg (by decide), if_neg (by decide), if_pos rfl]
      exact ⟨rs, hne, hv, hrs⟩
  · obtain ⟨hk, rs, hne, hv, hrs⟩ := recommendationsSection_mem h
    refine ⟨by rw [hv]; exact fun hcon => PyVal.noConfusion hcon, ?_⟩
    rw [hk]
    unfold fieldShapeOK
    rw [if_neg (by decide), if_neg (by decide), if_neg (by decide), if_neg (by decide), if_neg (by decide), if_neg (by decide), if_neg (by decide), if_neg (by decide), if_neg (by decide), if_pos rfl]
    exact ⟨rs, hne, hv, hrs⟩
/-! ### Empty-record normalization (claim C2 machinery) -/

theorem pyRepr_list_nil : pyRepr (PyVal.list []) = "[]" := by
  unfold pyRepr
  rfl

theorem pyRepr_dict_nil : pyRepr (PyVal.dict []) = "\x7b\x7d" := by
  unfold pyRepr
  rfl

theorem emptyVal_falsy {v : PyVal} (h : emptyVal v) : pyTruthy v = false := by
  rcases h with rfl | rfl | rfl | rfl <;> rfl

theorem toInt?_empty {v : PyVal} (h : emptyVal v) : toInt? v = Option.none := by
  rcases h with rfl | rfl | rfl | rfl
  · rfl
  · decide
  · show (if ((pyStr (PyVal.list [])).data.filter Char.isDigit).isEmpty = true
      then Option.none
      else some (Int.ofNat (digitsToNat ((pyStr (PyVal.list [])).data.filter Char.isDigit)))) =
      Option.none
    have h2 : pyStr (PyVal.list []) = "[]" := pyRepr_list_nil
    rw [h2]
    decide
  · show (if ((pyStr (PyVal.dict [])).data.filter Char.isDigit).isEmpty = true
      then Option.none
      else some (Int.ofNat (digitsToNat ((pyStr (PyVal.dict [])).data.filter Char.isDigit)))) =
      Option.none
    have h2 : pyStr (PyVal.dict []) = "\x7b\x7d" := pyRepr_dict_nil
    rw [h2]
    decide

theorem toFloat?_empty {v : PyVal} (h : emptyVal v) : toFloat? v = Option.none := by
  rcases h with rfl | rfl | rfl | rfl
  · rfl
  · decide
  · show (if (keepDigitsFirstDot ((pyStrip (pyStr (PyVal.list []))).data.map
        fun c => if c == ',' then '.' else c) false).isEmpty = true
      then Option.none
      else parsePyFloat (keepDigitsFirstDot ((pyStrip (pyStr (PyVal.list []))).data.map
        fun c => if c == ',' then '.' else c) false)) = Option.none
    have h2 : pyStr (PyVal.list []) = "[]" := pyRepr_list_nil
    rw [h2]
    decide
  · show (if (keepDigitsFirstDot ((pyStrip (pyStr (PyVal.dict []))).data.map
        fun c => if c == ',' then '.' else c) false).isEmpty = true
      then Option.none
      else parsePyFloat (keepDigitsFirstDot ((pyStrip (pyStr (PyVal.dict []))).data.map
        fun c => if c == ',' then '.' else c) false)) = Option.none
    have h2 : pyStr (PyVal.dict []) = "\x7b\x7d" := pyRepr_dict_nil
    rw [h2]
    decide

theorem unusable_emptyVal {field : String} {v : PyVal} (hf : field ∈ scalarFields)
    (h : unusableField field v) : emptyVal v := by
  have hf2 : field = "description" ∨ field = "experience" ∨ field = "web_url" ∨
      field = "title" ∨ field = "photo" ∨ field = "advertiser_id" := by
    simpa [scalarFields] using hf
  rcases hf2 with rfl | rfl | rfl | rfl | rfl | rfl <;> simpa [unusableField] using h

theorem scalarSection_empty {agent : List (String × PyVal)}
    (h : ∀ kv ∈ agent, unusableField kv.1 kv.2) : scalarSection agent = [] := by
  rw [scalarSection]
  rw [List.filterMap_eq_nil_iff]
  intro field hf
  cases hg : pyGet agent field with
  | none => rfl
  | some v =>
    have hm := mem_of_pyGet hg
    have hu := h (field, v) hm
    have he : emptyVal v := unusable_emptyVal hf hu
    show (if pyTruthy v = true then some (field, PyVal.str (collapseWS (pyStr v)))
      else Option.none) = Option.none
    rw [if_neg (by rw [emptyVal_falsy he]; exact Bool.false_ne_true)]

theorem firstYearSection_empty {agent : List (String × PyVal)}
    (h : ∀ kv ∈ agent, unusableField kv.1 kv.2) : firstYearSection agent = [] := by
  rw [firstYearSection]
  cases hg : pyGet agent "first_year" with
  | none =>
    have : pyGetD agent "first_year" PyVal.none = PyVal.none := by rw [pyGetD, hg]; rfl
    rw [this]
    rfl
  | some v =>
    have hu := h _ (mem_of_pyGet hg)
    have he : emptyVal v := by simpa [unusableField] using hu
    have : pyGetD agent "first_year" PyVal.none = v := by rw [pyGetD, hg]; rfl
    rw [this, toInt?_empty he]

theorem reviewCountSection_empty {agent : List (String × PyVal)}
    (h : ∀ kv ∈ agent, unusableField kv.1 kv.2) : reviewCountSection agent = [] := by
  rw [reviewCountSection]
  cases hg : pyGet agent "review_count" with
  | none =>
    have : pyGetD agent "review_count" PyVal.none = PyVal.none := by rw [pyGetD, hg]; rfl
    rw [this]
    rfl
  | some v =>
    have hu := h _ (mem_of_pyGet hg)
    have he : emptyVal v := by simpa [unusableField] using hu
    have : pyGetD agent "review_count" PyVal.none = v := by rw [pyGetD, hg]; rfl
    rw [this, toInt?_empty he]

theorem agentRatingSection_empty {agent : List (String × PyVal)}
    (h : ∀ kv ∈ agent, unusableField kv.1 kv.2) : agentRatingSection agent = [] := by
  rw [agentRatingSection]
  cases hg : pyGet agent "agent_rating" with
  | none =>
    have : pyGetD agent "agent_rating" PyVal.none = PyVal.none := by rw [pyGetD, hg]; rfl
    rw [this]
    rfl
  | some v =>
    have hu := h _ (mem_of_pyGet hg)
    have he : emptyVal v := by simpa [unusableField] using hu
    have : pyGetD agent "agent_rating" PyVal.none = v := by rw [pyGetD, hg]; rfl
    rw [this, toFloat?_empty he]

theorem pyOrEmptyList_eq (agent : List (String × PyVal)) (k : String) :
    pyOrEmptyList agent k =
      (if pyTruthy (pyGetD agent k PyVal.none) = true then pyGetD agent k PyVal.none
       else PyVal.list []) := rfl

theorem phonesSection_empty {agent : List (String × PyVal)}
    (h : ∀ kv ∈ agent, unusableField kv.1 kv.2) : phonesSection agent = [] := by
  unfold phonesSection
  cases hg : pyGet agent "phones" with
  | none =>
    have h3 : pyGetD agent "phones" PyVal.none = PyVal.none := by rw [pyGetD, hg]; rfl
    have h2 : pyOrEmptyList agent "phones" = PyVal.list [] := by
      rw [pyOrEmptyList_eq, h3]; rfl
    rw [h2]
    rfl
  | some v =>
    have hu : emptyVal v ∨ notList v := by
      simpa [unusableField] using h _ (mem_of_pyGet hg)
    have h3 : pyGetD agent "phones" PyVal.none = v := by rw [pyGetD, hg]; rfl
    by_cases htv : pyTruthy v = true
    · have h2 : pyOrEmptyList agent "phones" = v := by
        rw [pyOrEmptyList_eq, h3, if_pos htv]
      rw [h2]
      cases v with
      | list xs =>
        rcases hu with he | hnl
        · rcases he with hc | hc | hc | hc
          · exact PyVal.noConfusion hc
          · exact PyVal.noConfusion hc
          · injection hc with hc2
            rw [hc2]
            rfl
          · exact PyVal.noConfusion hc
        · exact absurd rfl (hnl xs)
      | none => rfl
      | str s => rfl
      | int n => rfl
      | float q => rfl
      | dict kvs => rfl
    · have h2 : pyOrEmptyList agent "phones" = PyVal.list [] := by
        rw [pyOrEmptyList_eq, h3, if_neg htv]
      rw [h2]
      rfl

theorem specializationsSection_empty {agent : List (String × PyVal)}
    (h : ∀ kv ∈ agent, unusableField kv.1 kv.2) : specializationsSection agent = [] := by
  unfold specializationsSection
  cases hg : pyGet agent "specializations" with
  | none =>
    have h3 : pyGetD agent "specializations" PyVal.none = PyVal.none := by
      rw [pyGetD, hg]; rfl
    have h2 : pyOrEmptyList agent "specializations" = PyVal.list [] := by
      rw [pyOrEmptyList_eq, h3]; rfl
    rw [h2]
    rfl
  | some v =>
    have hu : emptyVal v ∨ notList v := by
      simpa [unusableField] using h _ (mem_of_pyGet hg)
    have h3 : pyGetD agent "specializations" PyVal.none = v := by rw [pyGetD, hg]; rfl
    by_cases htv : pyTruthy v = true
    · have h2 : pyOrEmptyList agent "specializations" = v := by
        rw [pyOrEmptyList_eq, h3, if_pos htv]
      rw [h2]
      cases v with
      | list xs =>
        rcases hu with he | hnl
        · rcases he with hc | hc | hc | hc
          · exact PyVal.noConfusion hc
          · exact PyVal.noConfusion hc
          · injection hc with hc2
            rw [hc2]
            rfl
          · exact PyVal.noConfusion hc
        · exact absurd rfl (hnl xs)
      | none => rfl
      | str s => rfl
      | int n => rfl
      | float q => rfl
      | dict kvs => rfl
    · have h2 : pyOrEmptyList agent "specializations" = PyVal.list [] := by
        rw [pyOrEmptyList_eq, h3, if_neg htv]
      rw [h2]
      rfl

theorem addressSection_empty {agent : List (String × PyVal)}
    (h : ∀ kv ∈ agent, unusableField kv.1 kv.2) : addressSection agent = [] := by
  unfold addressSection
  cases hg : pyGet agent "address" with
  | none => rfl
  | some v =>
    have hu : emptyVal v ∨ notDict v := by
      simpa [unusableField] using h _ (mem_of_pyGet hg)
    cases v with
    | dict kvs =>
      rcases hu with he | hnd
      · rcases he with hc | hc | hc | hc
        · exact PyVal.noConfusion hc
        · exact PyVal.noConfusion hc
        · exact PyVal.noConfusion hc
        · injection hc with hc2
          rw [hc2]
          rfl
      · exact absurd rfl (hnd kvs)
    | none => rfl
    | str s => rfl
    | int n => rfl
    | float q => rfl
    | list xs => rfl

theorem officeSection_empty {agent : List (String × PyVal)}
    (h : ∀ kv ∈ agent, unusableField kv.1 kv.2) : officeSection agent = [] := by
  unfold officeSection
  cases hg : pyGet agent "office" with
  | none => rfl
  | some v =>
    have hu : emptyVal v ∨ notDict v := by
      simpa [unusableField] using h _ (mem_of_pyGet hg)
    cases v with
    | dict kvs =>
      rcases hu with he | hnd
      · rcases he with hc | hc | hc | hc
        · exact PyVal.noConfusion hc
        · exact PyVal.noConfusion hc
        · exact PyVal.noConfusion hc
        · injection hc with hc2
          rw [hc2]
          rfl
      · exact absurd rfl (hnd kvs)
    | none => rfl
    | str s => rfl
    | int n => rfl
    | float q => rfl
    | list xs => rfl

theorem brokerSection_empty {agent : List (String × PyVal)}
    (h : ∀ kv ∈ agent, unusableField kv.1 kv.2) : brokerSection agent = [] := by
  unfold brokerSection
  cases hg : pyGet agent "broker" with
  | none => rfl
  | some v =>
    have hu : emptyVal v ∨ notDict v := by
      simpa [unusableField] using h _ (mem_of_pyGet hg)
    cases v with
    | dict kvs =>
      rcases hu with he | hnd
      · rcases he with hc | hc | hc | hc
        · exact PyVal.noConfusion hc
        · exact PyVal.noConfusion hc
        · exact PyVal.noConfusion hc
        · injection hc with hc2
          rw [hc2]
          rfl
      · exact absurd rfl (hnd kvs)
    | none => rfl
    | str s => rfl
    | int n => rfl
    | float q => rfl
    | list xs => rfl

theorem recentlySoldSection_empty {agent : List (String × PyVal)}
    (h : ∀ kv ∈ agent, unusableField kv.1 kv.2) : recentlySoldSection agent = [] := by
  unfold recentlySoldSection
  cases hg : pyGet agent "recently_sold" with
  | none => rfl
  | some v =>
    have hnd : notDict v := by
      simpa [unusableField] using h _ (mem_of_pyGet hg)
    cases v with
    | dict kvs => exact absurd rfl (hnd kvs)
    | none => rfl
    | str s => rfl
    | int n => rfl
    | float q => rfl
    | list xs => rfl

theorem forSalePriceSection_empty {agent : List (String × PyVal)}
    (h : ∀ kv ∈ agent, unusableField kv.1 kv.2) : forSalePriceSection agent = [] := by
  unfold forSalePriceSection
  cases hg : pyGet agent "for_sale_price" with
  | none => rfl
  | some v =>
    have hnd : notDict v := by
      simpa [unusableField] using h _ (mem_of_pyGet hg)
    cases v with
    | dict kvs => exact absurd rfl (hnd kvs)
    | none => rfl
    | str s => rfl
    | int n => rfl
    | float q => rfl
    | list xs => rfl

theorem reviewsSection_empty {agent : List (String × PyVal)}
    (h : ∀ kv ∈ agent, unusableField kv.1 kv.2) : reviewsSection agent = [] := by
  unfold reviewsSection
  cases hg : pyGet agent "reviews" with
  | none => rfl
  | some v =>
    have hu : emptyVal v ∨ notList v := by
      simpa [unusableField] using h _ (mem_of_pyGet hg)
    cases v with
    | list xs =>
      rcases hu with he | hnl
      · rcases he with hc | hc | hc | hc
        · exact PyVal.noConfusion hc
        · exact PyVal.noConfusion hc
        · injection hc with hc2
          rw [hc2]
          rfl
        · exact PyVal.noConfusion hc
      · exact absurd rfl (hnl xs)
    | none => rfl
    | str s => rfl
    | int n => rfl
    | float q => rfl
    | dict kvs => rfl

theorem recommendationsSection_empty {agent : List (String × PyVal)}
    (h : ∀ kv ∈ agent, unusableField kv.1 kv.2) : recommendationsSection agent = [] := by
  unfold recommendationsSection
  cases hg : pyGet agent "recommendations" with
  | none => rfl
  | some v =>
    have hu : emptyVal v ∨ notList v := by
      simpa [unusableField] using h _ (mem_of_pyGet hg)
    cases v with
    | list xs =>
      rcases hu with he | hnl
      · rcases he with hc | hc | hc | hc
        · exact PyVal.noConfusion hc
        · exact PyVal.noConfusion hc
        · injection hc with hc2
          rw [hc2]
          rfl
        · exact PyVal.noConfusion hc
      · exact absurd rfl (hnl xs)
    | none => rfl
    | str s => rfl
    | int n => rfl
    | float q => rfl
    | dict kvs => rfl

/-- A RawRecord all of whose fields are unusable cleans to the empty
record. -/
theorem cleanAgentRecord_empty {agent : List (String × PyVal)}
    (h : ∀ kv ∈ agent, unusableField kv.1 kv.2) : cleanAgentRecord agent = [] := by
  rw [cleanAgentRecord, scalarSection_empty h, firstYearSection_empty h,
    reviewCountSection_empty h, agentRatingSection_empty h, phonesSection_empty h,
    addressSection_empty h, officeSection_empty h, specializationsSection_empty h,
    brokerSection_empty h, recentlySoldSection_empty h, forSalePriceSection_empty h,
    reviewsSection_empty h, recommendationsSection_empty h]
  rfl

/-- A record cleaning to the empty dict is dropped by `clean_agents`. -/
theorem cleanAgents_skip {agent : List (String × PyVal)}
    (hrec : cleanAgentRecord agent = []) (rest : List PyVal) :
    cleanAgents (PyVal.dict agent :: rest) = cleanAgents rest := by
  simp only [cleanAgents, List.filterMap_cons, hrec, List.isEmpty_nil, if_true]
/-! ### Lookups in the cleaned record (claim C8 machinery) -/

theorem pyGet_between {s1 s2 rest : List (String × PyVal)} {k : String}
    (h1 : ∀ kv ∈ s1, kv.1 ≠ k) (hrest : ∀ kv ∈ rest, kv.1 ≠ k) :
    pyGet (s1 ++ (s2 ++ rest)) k = pyGet s2 k := by
  rw [skip_section _ h1, pyGet_append]
  cases hg : pyGet s2 k with
  | some v => rfl
  | none => exact pyGet_eq_none_of_keys hrest

theorem firstYearSection_none {agent : List (String × PyVal)}
    (hi : toInt? (pyGetD agent "first_year" PyVal.none) = Option.none) :
    firstYearSection agent = [] := by
  unfold firstYearSection
  rw [hi]

theorem firstYearSection_zero {agent : List (String × PyVal)}
    (hi : toInt? (pyGetD agent "first_year" PyVal.none) = some 0) :
    firstYearSection agent = [] := by
  unfold firstYearSection
  rw [hi]
  show (if (0 : Int) = 0 then [] else [("first_year", PyVal.int 0)]) = []
  rw [if_pos rfl]

theorem firstYearSection_some {agent : List (String × PyVal)} {n : Int}
    (hi : toInt? (pyGetD agent "first_year" PyVal.none) = some n) (hz : n ≠ 0) :
    firstYearSection agent = [("first_year", PyVal.int n)] := by
  unfold firstYearSection
  rw [hi]
  show (if n = 0 then [] else [("first_year", PyVal.int n)]) = _
  rw [if_neg hz]

theorem reviewCountSection_none {agent : List (String × PyVal)}
    (hi : toInt? (pyGetD agent "review_count" PyVal.none) = Option.none) :
    reviewCountSection agent = [] := by
  unfold reviewCountSection
  rw [hi]

theorem reviewCountSection_some {agent : List (String × PyVal)} {n : Int}
    (hi : toInt? (pyGetD agent "review_count" PyVal.none) = some n) :
    reviewCountSection agent = [("review_count", PyVal.int n)] := by
  unfold reviewCountSection
  rw [hi]

theorem agentRatingSection_none {agent : List (String × PyVal)}
    (hi : toFloat? (pyGetD agent "agent_rating" PyVal.none) = Option.none) :
    agentRatingSection agent = [] := by
  unfold agentRatingSection
  rw [hi]

theorem agentRatingSection_some {agent : List (String × PyVal)} {q : ℚ}
    (hi : toFloat? (pyGetD agent "agent_rating" PyVal.none) = some q) :
    agentRatingSection agent = [("agent_rating", PyVal.float q)] := by
  unfold agentRatingSection
  rw [hi]

/-- Keys of the nine sections following the numeric ones. -/
theorem tail9_keys {agent : List (String × PyVal)} {kv : String × PyVal}
    (h : kv ∈ phonesSection agent ++ (addressSection agent ++ (officeSection agent ++
      (specializationsSection agent ++ (brokerSection agent ++
      (recentlySoldSection agent ++ (forSalePriceSection agent ++
      (reviewsSection agent ++ recommendationsSection agent)))))))) :
    kv.1 ∈ ["phones", "address", "office", "specializations", "broker",
      "recently_sold", "for_sale_price", "reviews", "recommendations"] := by
  rcases List.mem_append.mp h with h | h
  · rw [(phonesSection_mem h).1]; decide
  rcases List.mem_append.mp h with h | h
  · rw [(addressSection_mem h).1]; decide
  rcases List.mem_append.mp h with h | h
  · rw [(officeSection_mem h).1]; decide
  rcases List.mem_append.mp h with h | h
  · rw [(specializationsSection_mem h).1]; decide
  rcases List.mem_append.mp h with h | h
  · rw [(brokerSection_mem h).1]; decide
  rcases List.mem_append.mp h with h | h
  · rw [(recentlySoldSection_mem h).1]; decide
  rcases List.mem_append.mp h with h | h
  · rw [(forSalePriceSection_mem h).1]; decide
  rcases List.mem_append.mp h with h | h
  · rw [(reviewsSection_mem h).1]; decide
  · rw [(recommendationsSection_mem h).1]; decide

theorem tail9_ne {agent : List (String × PyVal)} {kv : String × PyVal} {k : String}
    (hk : k ∈ ["first_year", "review_count", "agent_rating"])
    (h : kv ∈ phonesSection agent ++ (addressSection agent ++ (officeSection agent ++
      (specializationsSection agent ++ (brokerSection agent ++
      (recentlySoldSection agent ++ (forSalePriceSection agent ++
      (reviewsSection agent ++ recommendationsSection agent)))))))) :
    kv.1 ≠ k := by
  intro heq
  have h2 := tail9_keys h
  rw [heq] at h2
  have hk2 : k = "first_year" ∨ k = "review_count" ∨ k = "agent_rating" := by
    simpa using hk
  rcases hk2 with rfl | rfl | rfl <;> revert h2 <;> decide

theorem scalar_ne_numeric {agent : List (String × PyVal)} {kv : String × PyVal}
    {k : String} (hk : k ∈ ["first_year", "review_count", "agent_rating"])
    (h : kv ∈ scalarSection agent) : kv.1 ≠ k := by
  intro heq
  have h2 := (scalarSection_mem h).1
  rw [heq] at h2
  have hk2 : k = "first_year" ∨ k = "review_count" ∨ k = "agent_rating" := by
    simpa using hk
  rcases hk2 with rfl | rfl | rfl <;> revert h2 <;> simp [scalarFields]

theorem record_get_first_year (agent : List (String × PyVal)) :
    pyGet (cleanAgentRecord agent) "first_year" =
      optFilterNonzero (toInt? (pyGetD agent "first_year" PyVal.none)) := by
  rw [cleanAgentRecord]
  simp only [List.append_assoc]
  rw [pyGet_between (fun kv hkv => scalar_ne_numeric (by decide) hkv)
    (fun kv hkv => by
      rcases List.mem_append.mp hkv with h | h
      · rw [(reviewCountSection_mem h).1]; decide
      rcases List.mem_append.mp h with h | h
      · rw [(agentRatingSection_mem h).1]; decide
      · exact tail9_ne (by decide) h)]
  cases hi : toInt? (pyGetD agent "first_year" PyVal.none) with
  | none => rw [firstYearSection_none hi]; rfl
  | some n =>
    by_cases hz : n = 0
    · rw [hz] at hi ⊢
      rw [firstYearSection_zero hi]
      rfl
    · rw [firstYearSection_some hi hz, pyGet_cons, if_pos rfl]
      show _ = (if n = 0 then Option.none else some (PyVal.int n))
      rw [if_neg hz]

theorem record_get_review_count (agent : List (String × PyVal)) :
    pyGet (cleanAgentRecord agent) "review_count" =
      Option.map PyVal.int (toInt? (pyGetD agent "review_count" PyVal.none)) := by
  rw [cleanAgentRecord]
  simp only [List.append_assoc]
  rw [skip_section _ (fun kv hkv => scalar_ne_numeric (by decide) hkv)]
  rw [pyGet_between
    (fun kv hkv => by rw [(firstYearSection_mem hkv).1]; decide)
    (fun kv hkv => by
      rcases List.mem_append.mp hkv with h | h
      · rw [(agentRatingSection_mem h).1]; decide
      · exact tail9_ne (by decide) h)]
  cases hi : toInt? (pyGetD agent "review_count" PyVal.none) with
  | none => rw [reviewCountSection_none hi]; rfl
  | some n => rw [reviewCountSection_some hi, pyGet_cons, if_pos rfl]; rfl

theorem record_get_agent_rating (agent : List (String × PyVal)) :
    pyGet (cleanAgentRecord agent) "agent_rating" =
      Option.map PyVal.float (toFloat? (pyGetD agent "agent_rating" PyVal.none)) := by
  rw [cleanAgentRecord]
  simp only [List.append_assoc]
  rw [skip_section _ (fun kv hkv => scalar_ne_numeric (by decide) hkv)]
  rw [skip_section _ (fun kv hkv => by rw [(firstYearSection_mem hkv).1]; decide)]
  rw [pyGet_between
    (fun kv hkv => by rw [(reviewCountSection_mem hkv).1]; decide)
    (fun kv hkv => tail9_ne (by decide) hkv)]
  cases hi : toFloat? (pyGetD agent "agent_rating" PyVal.none) with
  | none => rw [agentRatingSection_none hi]; rfl
  | some q => rw [agentRatingSection_some hi, pyGet_cons, if_pos rfl]; rfl

/-! ### Pipeline driver lemmas (claim C3 machinery) -/

theorem listingGo_all (env : ScrapeEnv) (K : Nat) (f : String → AgentRec) :
    ∀ (ls : List String) (acc : List AgentRec),
      (∀ l ∈ ls, env.profileData l = some (f l)) →
      listingGo env (some K) 0 ls acc = acc ++ (ls.take (K - acc.length)).map f := by
  intro ls
  induction ls with
  | nil => intro acc _; simp [listingGo]
  | cons l ls ih =>
    intro acc hp
    rw [listingGo]
    by_cases hK : K ≤ acc.length
    · rw [if_pos (by simp [limitReached]; omega)]
      have h0 : K - acc.length = 0 := by omega
      rw [h0]
      simp
    · rw [if_neg (by simp [limitReached]; omega)]
      rw [hp l (List.mem_cons_self l ls)]
      show listingGo env (some K) 0 ls (acc ++ [f l]) = _
      rw [ih (acc ++ [f l]) fun x hx => hp x (List.mem_cons_of_mem _ hx)]
      have hlen : (acc ++ [f l]).length = acc.length + 1 := by simp
      rw [hlen]
      have htake : K - acc.length = (K - (acc.length + 1)) + 1 := by omega
      rw [htake, List.take_succ_cons]
      simp

theorem scrapeGo_nil (env : ScrapeEnv) (limit : Option Nat) (acc : List AgentRec) :
    scrapeGo env limit [] acc = acc := rfl

/-- The behaviour of `scrape_from_urls` on one listing seed whose links
all extract successfully, under a limit smaller than the link count. -/
theorem scrapeFromUrls_listing_limited (env : ScrapeEnv) (u : String)
    (links : List String) (f : String → AgentRec) (N K : Nat)
    (hstrip : pyStrip u = u) (hne : u ≠ "")
    (hprof : env.looksLikeProfile u = false)
    (hlinks : env.listingLinks u = some links)
    (hN : links.length = N) (hnodup : links.Nodup)
    (hext : ∀ l ∈ links, env.profileData l = some (f l))
    (hK : K < N) :
    scrapeFromUrls env [u] (some K) = (links.take K).map f := by
  rw [scrapeFromUrls, scrapeGo]
  by_cases hK0 : K = 0
  · subst hK0
    rw [if_pos (by simp [limitReached])]
    simp
  · rw [if_neg (by simp [limitReached]; omega)]
    rw [hstrip, if_neg hne, hprof]
    show (let acc2 := [] ++ scrapeListing env u (some K) (List.length ([] : List AgentRec));
      if limitReached (some K) acc2.length = true then acc2
      else scrapeGo env (some K) [] acc2) = _
    have hsl : scrapeListing env u (some K) 0 = (links.take K).map f := by
      rw [scrapeListing, hlinks]
      show listingGo env (some K) 0 links [] = _
      rw [listingGo_all env K f links [] hext]
      simp
    show (if limitReached (some K) ([] ++ scrapeListing env u (some K) 0).length = true
      then [] ++ scrapeListing env u (some K) 0
      else scrapeGo env (some K) [] ([] ++ scrapeListing env u (some K) 0)) = _
    rw [hsl]
    by_cases hlim : limitReached (some K) ([] ++ (links.take K).map f).length = true
    · rw [if_pos hlim]
      simp
    · rw [if_neg hlim]
      rw [scrapeGo_nil]
      simp

/-! ### Exporter lemmas (claim C9 machinery) -/

theorem setItemS_ne_nil (d : List (String × String)) (k v : String) :
    setItemS d k v ≠ [] := by
  unfold setItemS
  by_cases hf : (d.find? fun kv => kv.1 == k).isSome = true
  · rw [if_pos hf]
    cases d with
    | nil => simp [List.find?] at hf
    | cons kv0 t => simp
  · rw [if_neg hf]
    simp

theorem exportStep_none {fmt : String} (writer : String → Option String)
    (exported : List (String × String)) (hc : canonFmt fmt = Option.none) :
    exportStep writer exported fmt = exported := by
  unfold exportStep
  rw [hc]

theorem exportStep_some_none {fmt key : String} (writer : String → Option String)
    (exported : List (String × String)) (hc : canonFmt fmt = some key)
    (hw : writer key = Option.none) : exportStep writer exported fmt = exported := by
  unfold exportStep
  rw [hc]
  show (match writer key with
    | some fn => setItemS exported key fn
    | Option.none => exported) = _
  rw [hw]

theorem exportStep_some_some {fmt key fn : String} (writer : String → Option String)
    (exported : List (String × String)) (hc : canonFmt fmt = some key)
    (hw : writer key = some fn) :
    exportStep writer exported fmt = setItemS exported key fn := by
  unfold exportStep
  rw [hc]
  show (match writer key with
    | some fn => setItemS exported key fn
    | Option.none => exported) = _
  rw [hw]

theorem fmtSucceeds_none {fmt : String} (writer : String → Option String)
    (hc : canonFmt fmt = Option.none) : fmtSucceeds writer fmt = false := by
  unfold fmtSucceeds
  rw [hc]

theorem fmtSucceeds_some {fmt key : String} (writer : String → Option String)
    (hc : canonFmt fmt = some key) : fmtSucceeds writer fmt = (writer key).isSome := by
  unfold fmtSucceeds
  rw [hc]

theorem exportStep_eq_nil (writer : String → Option String)
    (exported : List (String × String)) (fmt : String) :
    exportStep writer exported fmt = [] ↔
      exported = [] ∧ fmtSucceeds writer fmt = false := by
  cases hc : canonFmt fmt with
  | none => rw [exportStep_none writer exported hc, fmtSucceeds_none writer hc]; simp
  | some key =>
    rw [fmtSucceeds_some writer hc]
    cases hw : writer key with
    | none => rw [exportStep_some_none writer exported hc hw]; simp
    | some fn =>
      rw [exportStep_some_some writer exported hc hw]
      simp only [Option.isSome_some]
      constructor
      · intro h
        exact absurd h (setItemS_ne_nil exported key fn)
      · rintro ⟨_, h⟩
        exact absurd h (by simp)

theorem exportLoop_isEmpty (writer : String → Option String) :
    ∀ (fmts : List String) (exported : List (String × String)),
      List.foldl (exportStep writer) exported fmts = [] ↔
        exported = [] ∧ ∀ f ∈ fmts, fmtSucceeds writer f = false := by
  intro fmts
  induction fmts with
  | nil => intro exported; simp
  | cons fmt fmts ih =>
    intro exported
    rw [List.foldl_cons, ih]
    constructor
    · rintro ⟨h1, h2⟩
      obtain ⟨he, hf⟩ := (exportStep_eq_nil writer exported fmt).mp h1
      refine ⟨he, ?_⟩
      intro g hg
      rcases List.mem_cons.mp hg with rfl | hg2
      · exact hf
      · exact h2 g hg2
    · rintro ⟨he, hall⟩
      refine ⟨(exportStep_eq_nil writer exported fmt).mpr
        ⟨he, hall fmt (List.mem_cons_self fmt fmts)⟩, ?_⟩
      intro g hg
      exact hall g (List.mem_cons_of_mem _ hg)

theorem exportAll_eq (writer : String → Option String) (agents : List PyVal)
    (formats : List String) :
    exportAll writer agents formats =
      (if (normFormats formats).isEmpty then
        Except.error "No export formats specified."
       else if agents.isEmpty then Except.error "No agents to export."
       else if (List.foldl (exportStep writer) [] (normFormats formats)).isEmpty then
         Except.error "No exports were successfully generated."
       else Except.ok (List.foldl (exportStep writer) [] (normFormats formats))) := rfl

/-- `export_all` returns normally exactly when there is at least one
record and at least one recognized format whose writer succeeds; every
error path is one of those two conditions failing. -/
theorem exportAll_spec (writer : String → Option String) (agents : List PyVal)
    (formats : List String) :
    (agents ≠ [] → (∃ f ∈ normFormats formats, fmtSucceeds writer f = true) →
      ∃ out, exportAll writer agents formats = Except.ok out) ∧
    (∀ e, exportAll writer agents formats = Except.error e →
      agents = [] ∨ ∀ f ∈ normFormats formats, fmtSucceeds writer f = false) := by
  rw [exportAll_eq]
  by_cases h1 : (normFormats formats).isEmpty = true
  · rw [if_pos h1]
    have hnil : normFormats formats = [] := List.isEmpty_iff.mp h1
    constructor
    · rintro _ ⟨f, hf, _⟩
      rw [hnil] at hf
      exact absurd hf (List.not_mem_nil f)
    · intro e _
      right
      rw [hnil]
      intro f hf
      exact absurd hf (List.not_mem_nil f)
  · rw [if_neg h1]
    by_cases h2 : agents.isEmpty = true
    · rw [if_pos h2]
      have hnil : agents = [] := List.isEmpty_iff.mp h2
      constructor
      · intro hne _
        exact absurd hnil hne
      · intro e _
        left
        exact hnil
    · rw [if_neg h2]
      by_cases h3 : (List.foldl (exportStep writer) [] (normFormats formats)).isEmpty = true
      · rw [if_pos h3]
        have hall := ((exportLoop_isEmpty writer (normFormats formats) []).mp
          (List.isEmpty_iff.mp h3)).2
        constructor
        · rintro _ ⟨f, hf, hsucc⟩
          rw [hall f hf] at hsucc
          exact absurd hsucc (by simp)
        · intro e _
          right
          exact hall
      · rw [if_neg h3]
        constructor
        · intro _ _
          exact ⟨_, rfl⟩
        · intro e he
          exact absurd he (by simp)

/-! ### Claim theorems -/

/-- C1 (counterexample): the claim "every present field is non-empty" is
false as stated: a raw record whose `description` is the truthy
whitespace-only string `" "` cleans to a record whose `description` field
is present and is the empty string. -/
theorem c1_counterexample :
    pyGet (cleanAgentRecord [("description", PyVal.str " ")]) "description" =
      some (PyVal.str "") := rfl

/-- C1 (amended): for every RawRecord, every field present in the
CleanedRecord returned by `clean_agent_record` is of its canonical type
and is never a bare `None` placeholder, and every present field is
non-empty except that the six scalar text fields may be the empty string
(when the raw value was truthy but whitespace-only) and the two activity
blocks `recently_sold`/`for_sale_price` are shallow copies of the raw
mapping that may be empty; fields absent or unusable in the input are
simply absent from the output. -/
theorem c1_field_invariant_amended :
    ∀ (agent : List (String × PyVal)) (k : String) (v : PyVal),
      (k, v) ∈ cleanAgentRecord agent → v ≠ PyVal.none ∧ fieldShapeOK k v :=
  fun _ _ _ h => cleanAgentRecord_shape h

/-- C1 (witness): the amended invariant evaluated on a concrete record. -/
theorem c1_witness :
    PyVal.str "Jo" ≠ PyVal.none ∧ fieldShapeOK "title" (PyVal.str "Jo") :=
  c1_field_invariant_amended [("title", PyVal.str "Jo")] "title" (PyVal.str "Jo")
    (by rw [show cleanAgentRecord [("title", PyVal.str "Jo")] =
        [("title", PyVal.str "Jo")] from rfl]
        exact List.mem_singleton.mpr rfl)

/-- C2 (counterexample): the claim is false as stated: the RawRecord
whose single field `recently_sold` is the empty mapping (an "empty" field
value) cleans to a NON-empty record carrying the empty mapping through,
and `clean_agents` keeps it rather than excluding it. -/
theorem c2_counterexample :
    cleanAgentRecord [("recently_sold", PyVal.dict [])] =
        [("recently_sold", PyVal.dict [])] ∧
      cleanAgents [PyVal.dict [("recently_sold", PyVal.dict [])]] =
        [[("recently_sold", PyVal.dict [])]] := ⟨rfl, rfl⟩

/-- C2 (amended): every RawRecord whose fields are all empty, `None`, or
of the wrong type for their category — where for `recently_sold` and
`for_sale_price` the value must not be a mapping at all, since even an
empty mapping is copied through — normalizes to the empty record, and
`clean_agents` excludes it from the aggregate output. -/
theorem c2_unusable_excluded_amended :
    ∀ agent : List (String × PyVal), (∀ kv ∈ agent, unusableField kv.1 kv.2) →
      cleanAgentRecord agent = [] ∧
      ∀ rest, cleanAgents (PyVal.dict agent :: rest) = cleanAgents rest :=
  fun _ h => ⟨cleanAgentRecord_empty h, cleanAgents_skip (cleanAgentRecord_empty h)⟩

/-- C2 (witness): a concrete all-unusable record is dropped. -/
theorem c2_witness :
    cleanAgentRecord [("description", PyVal.str ""), ("phones", PyVal.int 7),
        ("recently_sold", PyVal.str "x")] = [] ∧
      cleanAgents [PyVal.dict [("description", PyVal.str ""), ("phones", PyVal.int 7),
        ("recently_sold", PyVal.str "x")]] = [] := by
  have h := c2_unusable_excluded_amended
    [("description", PyVal.str ""), ("phones", PyVal.int 7),
      ("recently_sold", PyVal.str "x")]
    (by
      intro kv hkv
      have hkv2 : kv = ("description", PyVal.str "") ∨ kv = ("phones", PyVal.int 7) ∨
          kv = ("recently_sold", PyVal.str "x") := by simpa using hkv
      rcases hkv2 with rfl | rfl | rfl
      · rw [unusableField, if_neg (by decide), if_neg (by decide), if_neg (by decide)]
        exact Or.inr (Or.inl rfl)
      · rw [unusableField, if_neg (by decide), if_pos (by decide)]
        exact Or.inr fun xs => PyVal.noConfusion
      · rw [unusableField, if_pos (by decide)]
        exact fun kvs => PyVal.noConfusion)
  exact ⟨h.1, (h.2 []).trans rfl⟩

/-- C3: for a listing seed whose page yields N distinct profile links,
each extracting successfully, and a global limit K < N, `scrape_from_urls`
yields exactly the first K results in link-discovery order. -/
theorem c3_listing_limit (env : ScrapeEnv) (u : String) (links : List String)
    (f : String → AgentRec) (N K : Nat)
    (hstrip : pyStrip u = u) (hne : u ≠ "")
    (hprof : env.looksLikeProfile u = false)
    (hlinks : env.listingLinks u = some links)
    (hN : links.length = N) (hnodup : links.Nodup)
    (hext : ∀ l ∈ links, env.profileData l = some (f l))
    (hK : K < N) :
    scrapeFromUrls env [u] (some K) = (links.take K).map f :=
  scrapeFromUrls_listing_limited env u links f N K hstrip hne hprof hlinks hN
    hnodup hext hK

/-- C3 (witness): the concrete environment with three links and limit 2. -/
theorem c3_witness :
    scrapeFromUrls envW ["L"] (some 2) =
      [[("web_url", PyVal.str "pa")], [("web_url", PyVal.str "pb")]] := by
  have h := c3_listing_limit envW "L" ["pa", "pb", "pc"]
    (fun l => [("web_url", PyVal.str l)]) 3 2 rfl (by decide) rfl rfl rfl
    (by decide) (by intro l _; rfl) (by decide)
  exact h

/-- C4: the coercers `_to_int` and `_to_float` never raise: on every input
value whatsoever they return either a canonical numeric value or the
explicit no-value signal. -/
theorem c4_coercers_never_raise :
    ∀ v : PyVal,
      (toInt? v = Option.none ∨ ∃ n : Int, toInt? v = some n) ∧
      (toFloat? v = Option.none ∨ ∃ q : ℚ, toFloat? v = some q) := by
  intro v
  constructor
  · cases h : toInt? v with
    | none => exact Or.inl rfl
    | some n => exact Or.inr ⟨n, rfl⟩
  · cases h : toFloat? v with
    | none => exact Or.inl rfl
    | some q => exact Or.inr ⟨q, rfl⟩

/-- C5: on already-canonical numeric inputs the coercers are the
identity: `_to_int` returns an integer input unchanged, and `_to_float`
returns an already-numeric input as the value-equal float. -/
theorem c5_coercers_identity_on_numeric :
    (∀ n : Int, toInt? (PyVal.int n) = some n) ∧
    (∀ n : Int, toFloat? (PyVal.int n) = some ((n : ℚ))) ∧
    (∀ q : ℚ, toFloat? (PyVal.float q) = some q) :=
  ⟨fun _ => rfl, fun _ => rfl, fun _ => rfl⟩

/-- C6: `_to_int` strips all non-digit noise from "$1,234 USD" and parses
1234; `_to_float` on "1.234,56" substitutes commas by dots, keeps the
digits and the first dot, and parses 1.23456. -/
theorem c6_coercer_noise_examples :
    toInt? (PyVal.str "$1,234 USD") = some 1234 ∧
    toFloat? (PyVal.str "1.234,56") = some (1.23456 : ℚ) := by
  constructor
  · decide
  · have h : toFloat? (PyVal.str "1.234,56") =
        some ((digitsToNat ['1'] : ℚ) +
          (digitsToNat ['2', '3', '4', '5', '6'] : ℚ) / (10 : ℚ) ^ 5) := rfl
    rw [h]
    have h1 : digitsToNat ['1'] = 1 := by decide
    have h2 : digitsToNat ['2', '3', '4', '5', '6'] = 23456 := by decide
    rw [h1, h2]
    norm_num

/-- C7 (counterexample): the phone-cleaning stage is not idempotent as
claimed: a phone with a truthy whitespace-only `ext` cleans to
`{number: "1", ext: ""}`, and recleaning that output drops the now-falsy
`ext`, yielding a different list. -/
theorem c7_counterexample :
    cleanPhonesStage (cleanPhonesStage
        [PyVal.dict [("number", PyVal.str "1"), ("ext", PyVal.str " ")]]) ≠
      cleanPhonesStage
        [PyVal.dict [("number", PyVal.str "1"), ("ext", PyVal.str " ")]] :=
  fun h => absurd (congrArg headDictLen h) (by decide)

/-- C7 (amended): the phone-cleaning stage (per-phone cleaning, dropping
empty numbers, deduplication) is idempotent on every raw phone list in
which no phone carries an `ext` value that is truthy yet whitespace-only
once stringified. -/
theorem c7_phone_stage_idempotent_amended :
    ∀ rs : List PyVal, (∀ r ∈ rs, extSafe r) →
      cleanPhonesStage (cleanPhonesStage rs) = cleanPhonesStage rs :=
  fun _ h => cleanPhonesStage_idem_of_safe h

/-- C7 (witness): idempotence evaluated on a concrete phone list. -/
theorem c7_witness :
    cleanPhonesStage (cleanPhonesStage
        [PyVal.dict [("number", PyVal.str "+1 (555) 123")], PyVal.str "junk"]) =
      cleanPhonesStage
        [PyVal.dict [("number", PyVal.str "+1 (555) 123")], PyVal.str "junk"] :=
  c7_phone_stage_idempotent_amended
    [PyVal.dict [("number", PyVal.str "+1 (555) 123")], PyVal.str "junk"]
    (by
      intro r hr
      have hr2 : r = PyVal.dict [("number", PyVal.str "+1 (555) 123")] ∨
          r = PyVal.str "junk" := by simpa using hr
      rcases hr2 with rfl | rfl
      · exact trivial
      · exact trivial)

/-- C8: the asymmetric inclusion policies of the numeric fields:
`first_year` is kept only when the coerced integer is truthy (zero is
treated as absent), `review_count` is kept whenever coercion yields a
value (zero included), and `agent_rating` is kept whenever float coercion
yields a value. -/
theorem c8_numeric_inclusion_policies :
    ∀ agent : List (String × PyVal),
      pyGet (cleanAgentRecord agent) "first_year" =
        optFilterNonzero (toInt? (pyGetD agent "first_year" PyVal.none)) ∧
      pyGet (cleanAgentRecord agent) "review_count" =
        Option.map PyVal.int (toInt? (pyGetD agent "review_count" PyVal.none)) ∧
      pyGet (cleanAgentRecord agent) "agent_rating" =
        Option.map PyVal.float (toFloat? (pyGetD agent "agent_rating" PyVal.none)) :=
  fun agent => ⟨record_get_first_year agent, record_get_review_count agent,
    record_get_agent_rating agent⟩

/-- C9: `export_all` skips unrecognized formats rather than failing,
returns normally whenever at least one record and one recognized format
with a succeeding writer are supplied, and raises only when the record
list is empty or no requested format succeeds. -/
theorem c9_export_all_error_policy :
    ∀ (writer : String → Option String) (agents : List PyVal) (formats : List String),
      (agents ≠ [] → (∃ f ∈ normFormats formats, fmtSucceeds writer f = true) →
        ∃ out, exportAll writer agents formats = Except.ok out) ∧
      (∀ e, exportAll writer agents formats = Except.error e →
        agents = [] ∨ ∀ f ∈ normFormats formats, fmtSucceeds writer f = false) :=
  exportAll_spec

/-- C9 (witness): one record, formats "JSON " (recognized after
normalization) and "bogus" (unknown, skipped): the export returns
normally. -/
theorem c9_witness :
    ∃ out, exportAll writerW [PyVal.none] ["JSON ", "bogus"] = Except.ok out :=
  (c9_export_all_error_policy writerW [PyVal.none] ["JSON ", "bogus"]).1
    (by simp) ⟨"json", by decide, by decide⟩

/-- C10: for every input that is not already an integer, `_to_int`
returns the no-value signal or a non-negative integer — the minus sign is
stripped with all other non-digit characters, so `_to_int("-5")` is 5. -/
theorem c10_to_int_nonnegative :
    toInt? (PyVal.str "-5") = some 5 ∧
    ∀ v : PyVal, (∀ n : Int, v ≠ PyVal.int n) →
      toInt? v = Option.none ∨ ∃ m : Int, toInt? v = some m ∧ 0 ≤ m := by
  constructor
  · decide
  · intro v hv
    cases v with
    | int n => exact absurd rfl (hv n)
    | none => exact Or.inl rfl
    | str s =>
      by_cases he : ((pyStr (PyVal.str s)).data.filter Char.isDigit).isEmpty = true
      · left
        show (if ((pyStr (PyVal.str s)).data.filter Char.isDigit).isEmpty = true
          then Option.none else some (Int.ofNat
            (digitsToNat ((pyStr (PyVal.str s)).data.filter Char.isDigit)))) = _
        rw [if_pos he]
      · right
        refine ⟨Int.ofNat (digitsToNat ((pyStr (PyVal.str s)).data.filter Char.isDigit)),
          ?_, Int.ofNat_nonneg _⟩
        show (if ((pyStr (PyVal.str s)).data.filter Char.isDigit).isEmpty = true
          then Option.none else some (Int.ofNat
            (digitsToNat ((pyStr (PyVal.str s)).data.filter Char.isDigit)))) = _
        rw [if_neg he]
    | float q =>
      by_cases he : ((pyStr (PyVal.float q)).data.filter Char.isDigit).isEmpty = true
      · left
        show (if ((pyStr (PyVal.float q)).data.filter Char.isDigit).isEmpty = true
          then Option.none else some (Int.ofNat
            (digitsToNat ((pyStr (PyVal.float q)).data.filter Char.isDigit)))) = _
        rw [if_pos he]
      · right
        refine ⟨Int.ofNat (digitsToNat ((pyStr (PyVal.float q)).data.filter Char.isDigit)),
          ?_, Int.ofNat_nonneg _⟩
        show (if ((pyStr (PyVal.float q)).data.filter Char.isDigit).isEmpty = true
          then Option.none else some (Int.ofNat
            (digitsToNat ((pyStr (PyVal.float q)).data.filter Char.isDigit)))) = _
        rw [if_neg he]
    | list xs =>
      by_cases he : ((pyStr (PyVal.list xs)).data.filter Char.isDigit).isEmpty = true
      · left
        show (if ((pyStr (PyVal.list xs)).data.filter Char.isDigit).isEmpty = true
          then Option.none else some (Int.ofNat
            (digitsToNat ((pyStr (PyVal.list xs)).data.filter Char.isDigit)))) = _
        rw [if_pos he]
      · right
        refine ⟨Int.ofNat (digitsToNat ((pyStr (PyVal.list xs)).data.filter Char.isDigit)),
          ?_, Int.ofNat_nonneg _⟩
        show (if ((pyStr (PyVal.list xs)).data.filter Char.isDigit).isEmpty = true
          then Option.none else some (Int.ofNat
            (digitsToNat ((pyStr (PyVal.list xs)).data.filter Char.isDigit)))) = _
        rw [if_neg he]
    | dict kvs =>
      by_cases he : ((pyStr (PyVal.dict kvs)).data.filter Char.isDigit).isEmpty = true
      · left
        show (if ((pyStr (PyVal.dict kvs)).data.filter Char.isDigit).isEmpty = true
          then Option.none else some (Int.ofNat
            (digitsToNat ((pyStr (PyVal.dict kvs)).data.filter Char.isDigit)))) = _
        rw [if_pos he]
      · right
        refine ⟨Int.ofNat (digitsToNat ((pyStr (PyVal.dict kvs)).data.filter Char.isDigit)),
          ?_, Int.ofNat_nonneg _⟩
        show (if ((pyStr (PyVal.dict kvs)).data.filter Char.isDigit).isEmpty = true
          then Option.none else some (Int.ofNat
            (digitsToNat ((pyStr (PyVal.dict kvs)).data.filter Char.isDigit)))) = _
        rw [if_neg he]

/-- C10 (witness): a non-integer input evaluated concretely. -/
theorem c10_witness :
    toInt? (PyVal.str "abc") = Option.none ∨
      ∃ m : Int, toInt? (PyVal.str "abc") = some m ∧ 0 ≤ m :=
  c10_to_int_nonnegative.2 (PyVal.str "abc") fun _ h => PyVal.noConfusion h

end RealtorScraper
